import Mathlib

/-!
Shallow embedding of the RoomSync data-access and matching layer
(src/server/storage.ts together with the entity types of src/shared/schema.ts
and the registration flow of src/server/routes.ts).

Modelling conventions:
- JavaScript Map objects (keyed by id, iterated in insertion order, with
  an in-place replacing set) become Lean lists together with a
  replace-or-append update function.
- Timestamps (JavaScript Date values) become natural numbers (epoch millis);
  operations that call Date.now or new Date take an explicit now argument.
- Numeric arithmetic of the source is embedded exactly over the naturals and
  rationals.  Math.round is round-half-up; the source computes the weighted
  compatibility sum and the percentage divisions in binary doubles, which on
  every value reachable in those expressions coincides with exact
  round-half-up of the corresponding rational (checked exhaustively over the
  reachable sub-score combinations), so the exact embedding is faithful there.
- Fallible methods (the source throws Error) return Option, none for throw.
-/

/-- Round-half-up of the fraction n / d for natural n and positive d, that is
floor of n / d + 1 / 2, computed as (2 n + d) / (2 d) in natural division.
This embeds Math.round applied to a quotient of naturals. -/
def roundHalfUpDiv (n d : Nat) : Nat :=
  (2 * n + d) / (2 * d)

/-- ASCII lower-casing of a single character; embeds the effect of the
JavaScript toLowerCase calls of the source on the ASCII strings it handles. -/
def lowerChar (c : Char) : Char :=
  if 'A' ≤ c ∧ c ≤ 'Z' then Char.ofNat (c.toNat + 32) else c

/-- ASCII lower-casing of a string (String.prototype.toLowerCase). -/
def lowerStr (s : String) : String :=
  String.mk (s.toList.map lowerChar)

/-- Does the pattern appear at the head of the list? -/
def charsBeginWith : List Char → List Char → Bool
  | [], _ => true
  | _ :: _, [] => false
  | a :: as, b :: bs => a == b && charsBeginWith as bs

/-- Does the list contain the pattern as a contiguous run? -/
def charsContain (l p : List Char) : Bool :=
  match l with
  | [] => p.isEmpty
  | _ :: t => charsBeginWith p l || charsContain t p

/-- String.prototype.includes: s contains pat as a substring. -/
def strIncludes (s pat : String) : Bool :=
  charsContain s.toList pat.toList

/-- JavaScript truthiness of an optional string: null, undefined and the
empty string are falsy. -/
def strTruthy : Option String → Bool
  | none => false
  | some s => !(s == "")

/-- JavaScript truthiness of an optional natural: null, undefined and 0
are falsy. -/
def natTruthy : Option Nat → Bool
  | none => false
  | some n => !(n == 0)

/-- An immutable badge award embedded in a User (shared/schema.ts UserBadge). -/
structure UserBadge where
  id : Nat
  name : String
  description : String
  icon : String
  category : String
  awardedAt : Nat
deriving DecidableEq

/-- A badge catalog entry (shared/schema.ts badges table). -/
structure Badge where
  id : Nat
  name : String
  description : String
  icon : String
  category : String
  criteria : String
  requiredPoints : Nat
deriving DecidableEq

/-- A user record (shared/schema.ts users table). -/
structure User where
  id : Nat
  username : String
  password : String
  firstName : Option String
  lastName : Option String
  age : Option Nat
  gender : Option String
  occupation : Option String
  location : Option String
  bio : Option String
  preferences : List String
  profileImage : Option String
  isVerified : Bool
  profileCompletion : Nat
  userBadges : List UserBadge
  createdAt : Nat
deriving DecidableEq

/-- The roommate-extension fields stored per user id in the in-memory
backend (Omit of Roommate by the keys of User). -/
structure RoommateInfo where
  isLookingForRoom : Bool
  budget : Option Nat
  moveInDate : Option String
  duration : Option String
  compatibilityScore : Option Nat
deriving DecidableEq

/-- The join of a user and its roommate extension (shared/schema.ts Roommate). -/
structure Roommate where
  user : User
  info : RoommateInfo
deriving DecidableEq

/-- A room listing (shared/schema.ts listings table). -/
structure Listing where
  id : Nat
  userId : Nat
  title : String
  description : String
  location : String
  price : Nat
  roomType : String
  roommates : Nat
  availableFrom : String
  amenities : List String
  images : List String
  isFeatured : Bool
  isPublic : Bool
  rating : Nat
  createdAt : Nat
deriving DecidableEq

/-- A direct message (shared/schema.ts messages table). -/
structure Message where
  id : Nat
  senderId : Nat
  receiverId : Nat
  content : String
  read : Bool
  timestamp : Nat
deriving DecidableEq

/-- A derived conversation entry (shared/schema.ts Conversation). -/
structure Conversation where
  userId : Nat
  name : String
  profileImage : Option String
  lastMessage : String
  lastMessageTime : Nat
  read : Bool
deriving DecidableEq

/-- The cached conversation pointer of the in-memory backend. -/
structure ConversationPtr where
  lastMessageId : Nat
  updatedAt : Nat
deriving DecidableEq

/-- The registration payload (shared/schema.ts insertUserSchema: username
and password only). -/
structure InsertUser where
  username : String
  password : String
deriving DecidableEq

/-- A partial profile update (shared/schema.ts updateUserProfileSchema);
none means the field is absent from the partial. -/
structure UpdateUserProfile where
  firstName : Option String := none
  lastName : Option String := none
  age : Option Nat := none
  gender : Option String := none
  occupation : Option String := none
  location : Option String := none
  bio : Option String := none
  preferences : Option (List String) := none
  profileImage : Option String := none
  profileCompletion : Option Nat := none
  userBadges : Option (List UserBadge) := none
deriving DecidableEq

/-- The in-memory backend state (MemStorage fields): each Map becomes a list
in insertion order, plus the four id counters. -/
structure MemStorage where
  users : List User
  roommates : List (Nat × RoommateInfo)
  listings : List Listing
  messages : List Message
  conversations : List (String × ConversationPtr)
  badges : List Badge
  userId : Nat
  listingId : Nat
  messageId : Nat
  badgeId : Nat
deriving DecidableEq

/-- Map.set on the users map: replace the entry with the same id in place,
or append when the key is new. -/
def setUser (l : List User) (u : User) : List User :=
  if l.any (fun x => x.id == u.id) then
    l.map (fun x => if x.id == u.id then u else x)
  else l ++ [u]

/-- Map.set on the badges map. -/
def setBadge (l : List Badge) (b : Badge) : List Badge :=
  if l.any (fun x => x.id == b.id) then
    l.map (fun x => if x.id == b.id then b else x)
  else l ++ [b]

/-- Modelled from the spec: the one-way credential hash.  The source
delegates to the external crypto library (sha-256 hex digest), which is not
part of this repository; the digest is embedded as an abstract encoding,
since every claim depends only on the stored credential being the image of
the raw credential under this fixed function. -/
def hashPassword (password : String) : String :=
  String.append "sha256:" password

/-- MemStorage.getUser: look the user up by id. -/
def MemStorage.getUser (s : MemStorage) (id : Nat) : Option User :=
  s.users.find? (fun u => u.id == id)

/-- MemStorage.getUserByUsername: find the first user with the handle. -/
def MemStorage.getUserByUsername (s : MemStorage) (username : String) : Option User :=
  s.users.find? (fun u => u.username == username)

/-- MemStorage.createUser: hash the credential, allocate the next id, build
the user with empty profile defaults and store it. -/
def MemStorage.createUser (s : MemStorage) (insertUser : InsertUser) (now : Nat) :
    User × MemStorage :=
  let hashedPassword := hashPassword insertUser.password
  let id := s.userId
  let user : User :=
    { id := id
      username := insertUser.username
      password := hashedPassword
      firstName := none
      lastName := none
      age := none
      gender := none
      occupation := none
      location := none
      bio := none
      preferences := []
      profileImage := none
      isVerified := false
      profileCompletion := 0
      userBadges := []
      createdAt := now }
  (user, { s with users := setUser s.users user, userId := s.userId + 1 })

/-- Merge a partial profile into a user: supplied fields overwrite, absent
fields are left untouched (the object spread of the source). -/
def mergeProfile (u : User) (p : UpdateUserProfile) : User :=
  { u with
    firstName := match p.firstName with | some v => some v | none => u.firstName
    lastName := match p.lastName with | some v => some v | none => u.lastName
    age := match p.age with | some v => some v | none => u.age
    gender := match p.gender with | some v => some v | none => u.gender
    occupation := match p.occupation with | some v => some v | none => u.occupation
    location := match p.location with | some v => some v | none => u.location
    bio := match p.bio with | some v => some v | none => u.bio
    preferences := p.preferences.getD u.preferences
    profileImage := match p.profileImage with | some v => some v | none => u.profileImage
    profileCompletion := p.profileCompletion.getD u.profileCompletion
    userBadges := p.userBadges.getD u.userBadges }

/-- MemStorage.updateUserProfile: none when the user is missing (the source
throws), otherwise store and return the merged user. -/
def MemStorage.updateUserProfile (s : MemStorage) (id : Nat) (profile : UpdateUserProfile) :
    Option (User × MemStorage) :=
  match MemStorage.getUser s id with
  | none => none
  | some user =>
    let updatedUser := mergeProfile user profile
    some (updatedUser, { s with users := setUser s.users updatedUser })

/-- The registration flow of routes.ts (POST api auth register): reject when
the handle is taken, otherwise delegate to createUser. -/
def registerUser (s : MemStorage) (insertUser : InsertUser) (now : Nat) :
    Option (User × MemStorage) :=
  match MemStorage.getUserByUsername s insertUser.username with
  | some _ => none
  | none => some (MemStorage.createUser s insertUser now)

/-- Look up the roommate extension stored for a user id. -/
def lookupRoommateInfo (l : List (Nat × RoommateInfo)) (id : Nat) : Option RoommateInfo :=
  (l.find? (fun kv => kv.1 == id)).map (fun kv => kv.2)

/-- MemStorage.getRoommates invoked without filters (the only form used by
getTopMatches): join every user that has a roommate extension, in user-map
order. -/
def MemStorage.getRoommates (s : MemStorage) : List Roommate :=
  s.users.filterMap (fun u =>
    (lookupRoommateInfo s.roommates u.id).map (fun ri => Roommate.mk u ri))

/-- The preferences of the first user that the second also holds, in the
order of the first (commonPreferences in getTopMatches). -/
def commonPreferences (user roommate : User) : List String :=
  user.preferences.filter (fun pref => roommate.preferences.contains pref)

/-- The number of distinct preference tags over both users (the size of the
Set built from both preference arrays). -/
def totalPreferences (user roommate : User) : Nat :=
  (user.preferences ++ roommate.preferences).dedup.length

/-- The lifestyle sub-score: rounded shared-over-distinct percentage, or the
neutral 50 when neither user has tags. -/
def lifestyleScore (user roommate : User) : Nat :=
  if totalPreferences user roommate > 0 then
    roundHalfUpDiv (100 * (commonPreferences user roommate).length)
      (totalPreferences user roommate)
  else 50

/-- The location sub-score: 100 on equal lower-cased locations, 75 when one
contains the other, else 50; a missing or empty location (falsy in the
source conditions) always scores 50. -/
def locationScore (user roommate : User) : Nat :=
  match user.location, roommate.location with
  | some a, some b =>
    if a == "" || b == "" then 50
    else if lowerStr a == lowerStr b then 100
    else if strIncludes (lowerStr a) (lowerStr b) || strIncludes (lowerStr b) (lowerStr a)
      then 75
    else 50
  | _, _ => 50

/-- The two mutually exclusive schedule tags. -/
def scheduleTags : List String :=
  ["Early bird", "Night owl"]

/-- A users schedule preferences: its tags restricted to the schedule tags. -/
def schedulePrefs (u : User) : List String :=
  u.preferences.filter (fun p => scheduleTags.contains p)

/-- The schedule sub-score: when both users carry a schedule tag, 100 if
they share one and 30 otherwise; neutral 70 when either has none. -/
def scheduleScore (user roommate : User) : Nat :=
  if (schedulePrefs user).length > 0 ∧ (schedulePrefs roommate).length > 0 then
    if (schedulePrefs user).any (fun p => (schedulePrefs roommate).contains p) then 100
    else 30
  else 70

/-- The weighted overall score: Math.round of half the lifestyle plus three
tenths of the location plus one fifth of the schedule sub-score, embedded
exactly (the double computation of the source coincides with this value on
every reachable sub-score triple). -/
def overallScore (lifestyle location schedule : Nat) : Nat :=
  roundHalfUpDiv (5 * lifestyle + 3 * location + 2 * schedule) 10

/-- The detailed compatibility breakdown attached to each match. -/
structure CompatibilityDetails where
  lifestyleScore : Nat
  locationScore : Nat
  scheduleScore : Nat
  overallScore : Nat
  commonInterests : List String
deriving DecidableEq

/-- The compatibility engine: sub-scores, weighted overall and the common
tag list for a pair of users. -/
def computeCompatibility (user roommate : User) : CompatibilityDetails :=
  let l := lifestyleScore user roommate
  let lo := locationScore user roommate
  let sc := scheduleScore user roommate
  { lifestyleScore := l
    locationScore := lo
    scheduleScore := sc
    overallScore := overallScore l lo sc
    commonInterests := commonPreferences user roommate }

/-- A roommate together with its computed compatibility data, as returned
by getTopMatches. -/
structure ScoredRoommate where
  base : Roommate
  compatibilityScore : Nat
  compatibilityDetails : CompatibilityDetails
deriving DecidableEq

/-- Stable insertion: walk past every element x with bf x m (x strictly
ordered before m) and place m in front of the first remaining element.
With a strict bf this is the unique stable order, hence it embeds the
stable Array.prototype.sort of the source for the given comparator. -/
def insertKeep {α : Type} (bf : α → α → Bool) (m : α) : List α → List α
  | [] => [m]
  | x :: xs => if bf x m then x :: insertKeep bf m xs else m :: x :: xs

/-- Stable insertion sort driven by the strict before-relation bf. -/
def sortKeep {α : Type} (bf : α → α → Bool) : List α → List α
  | [] => []
  | x :: xs => insertKeep bf x (sortKeep bf xs)

/-- The strict before-relation of the match sort: strictly higher
compatibility score comes first. -/
def scoreBefore (x m : ScoredRoommate) : Bool :=
  decide (m.compatibilityScore < x.compatibilityScore)

/-- The scored candidate list of getTopMatches before sorting: every
roommate other than the requester, scored against the given user. -/
def scoredCandidates (s : MemStorage) (user : User) (userId : Nat) : List ScoredRoommate :=
  ((MemStorage.getRoommates s).filter (fun r => !(r.user.id == userId))).map
    (fun r =>
      let d := computeCompatibility user r.user
      { base := r, compatibilityScore := d.overallScore, compatibilityDetails := d })

/-- MemStorage.getTopMatches: empty for a missing user; otherwise score the
other roommates, sort by descending overall score (stable) and keep at most
six. -/
def MemStorage.getTopMatches (s : MemStorage) (userId : Nat) : List ScoredRoommate :=
  match MemStorage.getUser s userId with
  | none => []
  | some user => (sortKeep scoreBefore (scoredCandidates s user userId)).take 6

/-- The persistent backend state the claims touch: the rows of the users,
messages, listings and badges tables in insertion (serial id) order, plus
the serial sequence that the next badge insert draws its id from. -/
structure DbStorage where
  messages : List Message
  listings : List Listing
  users : List User
  badges : List Badge
  badgeSeq : Nat
deriving DecidableEq

/-- MemStorage.getListingById: the listing is returned iff it exists and is
public or owned by the (defined) viewer; a hidden listing yields none
exactly like a missing id. -/
def MemStorage.getListingById (s : MemStorage) (id : Nat) (currentUserId : Option Nat) :
    Option Listing :=
  match s.listings.find? (fun l => l.id == id) with
  | none => none
  | some listing =>
    if listing.isPublic || (match currentUserId with
        | some v => v == listing.userId
        | none => false) then
      some listing
    else none

/-- DatabaseStorage.getListingById: same visibility rule, written in the
source as a negated condition in which the viewer check uses JavaScript
truthiness (a viewer id of 0 behaves like an undefined viewer).  The source
additionally joins the owner display name onto the row; no claim mentions
that field, so the row itself is returned. -/
def DbStorage.getListingById (s : DbStorage) (id : Nat) (currentUserId : Option Nat) :
    Option Listing :=
  match s.listings.find? (fun l => l.id == id) with
  | none => none
  | some listing =>
    if !listing.isPublic &&
        (!(natTruthy currentUserId) || !(currentUserId == some listing.userId)) then
      none
    else some listing

/-- MemStorage.getUserListings: every stored listing owned by the user, with
no visibility predicate and no viewer argument. -/
def MemStorage.getUserListings (s : MemStorage) (userId : Nat) : List Listing :=
  s.listings.filter (fun listing => listing.userId == userId)

/-- DatabaseStorage.getUserListings: the same ownership-only selection (the
source also joins the owner display name, which no claim mentions). -/
def DbStorage.getUserListings (s : DbStorage) (userId : Nat) : List Listing :=
  s.listings.filter (fun listing => listing.userId == userId)

/-- Does the message belong to the thread between the two given users
(either direction)? -/
def pairPred (userId otherUserId : Nat) (m : Message) : Bool :=
  (m.senderId == userId && m.receiverId == otherUserId) ||
  (m.senderId == otherUserId && m.receiverId == userId)

/-- The strict before-relation of the thread sort: strictly earlier
timestamp comes first. -/
def timeBefore (x m : Message) : Bool :=
  decide (x.timestamp < m.timestamp)

/-- MemStorage.getMessages: the thread between the two users sorted
ascending by timestamp (stable).  The method reads the map and never
mutates it, so the state comes back unchanged. -/
def MemStorage.getMessages (s : MemStorage) (userId otherUserId : Nat) :
    List Message × MemStorage :=
  (sortKeep timeBefore (s.messages.filter (pairPred userId otherUserId)), s)

/-- DatabaseStorage.getMessages: select the thread sorted ascending by
timestamp, then set read on every stored message from the other user to the
caller that is still unread.  (The source also joins sender display names
onto the returned rows; no claim mentions that field.) -/
def DbStorage.getMessages (s : DbStorage) (userId otherUserId : Nat) :
    List Message × DbStorage :=
  let result := sortKeep timeBefore (s.messages.filter (pairPred userId otherUserId))
  let updated := s.messages.map (fun m =>
    if m.senderId == otherUserId && m.receiverId == userId && m.read == false then
      { m with read := true }
    else m)
  (result, { s with messages := updated })

/-- Every message in which the user takes part, in stored order. -/
def MemStorage.userMessages (s : MemStorage) (userId : Nat) : List Message :=
  s.messages.filter (fun m => m.senderId == userId || m.receiverId == userId)

/-- The correspondent of a message from the viewpoint of userId. -/
def partnerOf (userId : Nat) (m : Message) : Nat :=
  if m.senderId == userId then m.receiverId else m.senderId

/-- First-occurrence deduplication, the iteration order of a JavaScript Set
built by successive adds. -/
def dedupFirstAux (seen : List Nat) : List Nat → List Nat
  | [] => []
  | a :: l => if seen.contains a then dedupFirstAux seen l
              else a :: dedupFirstAux (a :: seen) l

/-- First-occurrence deduplication of a list of ids. -/
def dedupFirst (l : List Nat) : List Nat :=
  dedupFirstAux [] l

/-- The distinct conversation partners of a user, in order of first
appearance in the message log. -/
def conversationPartners (s : MemStorage) (userId : Nat) : List Nat :=
  dedupFirst ((MemStorage.userMessages s userId).map (partnerOf userId))

/-- The display name resolution of the aggregator: trimmed first plus last
name, falling back to the handle when both are missing or empty. -/
def displayName (partner : User) : String :=
  let joined := ((partner.firstName.getD "") ++ " " ++ (partner.lastName.getD "")).trim
  if joined == "" then partner.username else joined

/-- The strict before-relation of the inbox sort: strictly later latest
message comes first. -/
def convBefore (x m : Conversation) : Bool :=
  decide (m.lastMessageTime < x.lastMessageTime)

/-- MemStorage.getConversations: one entry per distinct correspondent whose
user record resolves, carrying the latest message of the pair, sorted by
most recent message first. -/
def MemStorage.getConversations (s : MemStorage) (userId : Nat) : List Conversation :=
  let entries := (conversationPartners s userId).filterMap (fun partnerId =>
    match MemStorage.getUser s partnerId with
    | none => none
    | some partner =>
      match (MemStorage.getMessages s userId partnerId).1.getLast? with
      | none => none
      | some latestMessage =>
        some { userId := partnerId
               name := displayName partner
               profileImage := partner.profileImage
               lastMessage := latestMessage.content
               lastMessageTime := latestMessage.timestamp
               read := latestMessage.senderId == userId || latestMessage.read })
  sortKeep convBefore entries

/-- MemStorage.getBadgeById. -/
def MemStorage.getBadgeById (s : MemStorage) (id : Nat) : Option Badge :=
  s.badges.find? (fun b => b.id == id)

/-- MemStorage.getUserBadges: the badge list embedded in the user, empty for
a missing user. -/
def MemStorage.getUserBadges (s : MemStorage) (userId : Nat) : List UserBadge :=
  match MemStorage.getUser s userId with
  | none => []
  | some user => user.userBadges

/-- MemStorage.awardBadge: none when the user or the badge is missing (the
source throws); otherwise build the award snapshot and append it to the
users badge list unless an award with that badge id is already held. -/
def MemStorage.awardBadge (s : MemStorage) (userId badgeId now : Nat) :
    Option (UserBadge × MemStorage) :=
  match MemStorage.getUser s userId with
  | none => none
  | some user =>
    match MemStorage.getBadgeById s badgeId with
    | none => none
    | some badge =>
      let userBadge : UserBadge :=
        { id := badge.id
          name := badge.name
          description := badge.description
          icon := badge.icon
          category := badge.category
          awardedAt := now }
      if user.userBadges.any (fun b => b.id == badgeId) then some (userBadge, s)
      else
        let updated := { user with userBadges := user.userBadges ++ [userBadge] }
        some (userBadge, { s with users := setUser s.users updated })

/-- The state reached by awardBadge, identical when the call throws; a
convenience projection used to state the badge claims. -/
def awardState (s : MemStorage) (userId badgeId now : Nat) : MemStorage :=
  match MemStorage.awardBadge s userId badgeId now with
  | some r => r.2
  | none => s

/-- The fixed catalog entry of a completion badge, as built by the source
at the next badge-counter id. -/
def completionBadge (id : Nat) (nm descr ic : String) (pts : Nat) : Badge :=
  { id := id
    name := nm
    description := descr
    icon := ic
    category := "profile"
    criteria := String.append "Complete " (String.append (toString pts) "% of your profile")
    requiredPoints := pts }

/-- One threshold step of checkProfileCompletionBadges: find the catalog
badge by name, creating it at the next badge id when absent, then award it
to the user. -/
def ensureBadgeAndAward (s : MemStorage) (userId now : Nat)
    (nm descr ic : String) (pts : Nat) : MemStorage :=
  match s.badges.find? (fun b => b.name == nm) with
  | some b => awardState s userId b.id now
  | none =>
    let b := completionBadge s.badgeId nm descr ic pts
    let s1 := { s with badges := setBadge s.badges b, badgeId := s.badgeId + 1 }
    awardState s1 userId b.id now

/-- MemStorage.checkProfileCompletionBadges: the four cumulative completion
thresholds, evaluated in ascending order. -/
def MemStorage.checkProfileCompletionBadges (s : MemStorage)
    (userId completion now : Nat) : MemStorage :=
  let s1 := if 25 ≤ completion then
      ensureBadgeAndAward s userId now "Profile Starter"
        "Completed 25% of your profile" "üèÖ" 25
    else s
  let s2 := if 50 ≤ completion then
      ensureBadgeAndAward s1 userId now "Halfway There"
        "Completed 50% of your profile" "ü•à" 50
    else s1
  let s3 := if 75 ≤ completion then
      ensureBadgeAndAward s2 userId now "Almost Complete"
        "Completed 75% of your profile" "ü•á" 75
    else s2
  if completion == 100 then
    ensureBadgeAndAward s3 userId now "Profile Master"
      "Completed 100% of your profile" "üèÜ" 100
  else s3

/-- The completion count of the in-memory backend: the eight scalar profile
fields count when they are not null and not undefined (an empty string still
counts), and the preference list counts when non-empty. -/
def memFilledCount (user : User) : Nat :=
  (([user.firstName.isSome, user.lastName.isSome,
      user.age.isSome, user.gender.isSome,
      user.occupation.isSome, user.location.isSome, user.bio.isSome,
      user.profileImage.isSome].filter (fun b => b)).length) +
  (if user.preferences.length > 0 then 1 else 0)

/-- MemStorage.calculateProfileCompletion: none for a missing user;
otherwise the rounded percentage of filled signals out of nine, stored on
the user, followed by the badge threshold checks. -/
def MemStorage.calculateProfileCompletion (s : MemStorage) (userId now : Nat) :
    Option (Nat × MemStorage) :=
  match MemStorage.getUser s userId with
  | none => none
  | some user =>
    let percentage := roundHalfUpDiv (100 * memFilledCount user) 9
    let updatedUser := { user with profileCompletion := percentage }
    let s1 := { s with users := setUser s.users updatedUser }
    some (percentage, MemStorage.checkProfileCompletionBadges s1 userId percentage now)

/-- The state reached by calculateProfileCompletion, identical when the
call throws. -/
def calcState (s : MemStorage) (userId now : Nat) : MemStorage :=
  match MemStorage.calculateProfileCompletion s userId now with
  | some r => r.2
  | none => s

/-- The completion count of the persistent backend: each of the nine
signals counts by JavaScript truthiness (empty strings, a zero age and an
empty preference list do not count). -/
def dbFilledCount (user : User) : Nat :=
  (([strTruthy user.firstName, strTruthy user.lastName, natTruthy user.age,
      strTruthy user.gender, strTruthy user.occupation, strTruthy user.location,
      strTruthy user.bio, decide (user.preferences.length > 0),
      strTruthy user.profileImage].filter (fun b => b)).length)

/-- The conversation cache key: both ids sorted ascending, joined by a
dash. -/
def conversationKey (user1Id user2Id : Nat) : String :=
  if user1Id ≤ user2Id then
    String.append (toString user1Id) (String.append "-" (toString user2Id))
  else
    String.append (toString user2Id) (String.append "-" (toString user1Id))

/-- The first seeded user. -/
def seedUser1 (now : Nat) : User :=
  { id := 1
    username := "sarah_j"
    password := hashPassword "password123"
    firstName := some "Sarah"
    lastName := some "Johnson"
    age := some 28
    gender := some "female"
    occupation := some "Marketing Manager"
    location := some "Downtown, New York"
    bio := some "I\x27m a tidy, social professional looking for a compatible roommate. I enjoy cooking and quiet evenings during the week, but I\x27m social on weekends."
    preferences := ["Non-smoker", "Early bird", "Clean", "Pet-friendly"]
    profileImage := some "https://images.unsplash.com/photo-1573496359142-b8d87734a5a2?ixlib=rb-1.2.1&auto=format&fit=crop&w=800&q=80"
    isVerified := true
    profileCompletion := 100
    userBadges := []
    createdAt := now }

/-- The second seeded user. -/
def seedUser2 (now : Nat) : User :=
  { id := 2
    username := "alex_dev"
    password := hashPassword "password123"
    firstName := some "Alex"
    lastName := some "Chen"
    age := some 26
    gender := some "male"
    occupation := some "Software Developer"
    location := some "Williamsburg, Brooklyn"
    bio := some "Software developer who works from home most days. I\x27m quiet, clean, and respect personal space. Looking for a roommate with similar values."
    preferences := ["Non-smoker", "Night owl", "Organized", "Quiet"]
    profileImage := some "https://images.unsplash.com/photo-1463453091185-61582044d556?ixlib=rb-1.2.1&auto=format&fit=crop&w=800&q=80"
    isVerified := true
    profileCompletion := 100
    userBadges := []
    createdAt := now }

/-- The third seeded user. -/
def seedUser3 (now : Nat) : User :=
  { id := 3
    username := "jamie_g"
    password := hashPassword "password123"
    firstName := some "Jamie"
    lastName := some "Garcia"
    age := some 24
    gender := some "non-binary"
    occupation := some "Graphic Designer"
    location := some "Chelsea, New York"
    bio := some "Creative soul who enjoys art, music, and good conversation. Looking for a roommate who appreciates a vibrant living space with character."
    preferences := ["Non-smoker", "Flexible schedule", "Creative", "Social"]
    profileImage := some "https://images.unsplash.com/photo-1542206395-9feb3edaa68d?ixlib=rb-1.2.1&auto=format&fit=crop&w=800&q=80"
    isVerified := true
    profileCompletion := 100
    userBadges := []
    createdAt := now }

/-- The three seeded listings. -/
def seedListings (now : Nat) : List Listing :=
  [{ id := 1
     userId := 1
     title := "Modern Studio Apartment"
     description := "Beautiful, newly renovated studio in the heart of East Village. Close to restaurants, bars, and public transportation. Looking for a clean, responsible roommate."
     location := "East Village, New York"
     price := 1200
     roomType := "Private Room"
     roommates := 1
     availableFrom := "2023-08-01"
     amenities := ["Furnished", "Utilities Included", "WiFi"]
     images := ["https://images.unsplash.com/photo-1522708323590-d24dbb6b0267?ixlib=rb-1.2.1&auto=format&fit=crop&w=800&q=80"]
     isFeatured := true
     isPublic := true
     rating := 48
     createdAt := now },
   { id := 2
     userId := 2
     title := "Spacious Room in Shared Apartment"
     description := "Large private room in a 2-bedroom apartment. The space is bright, clean, and in a great neighborhood. Looking for a quiet, responsible roommate."
     location := "Williamsburg, Brooklyn"
     price := 950
     roomType := "Private Room"
     roommates := 2
     availableFrom := "2023-09-01"
     amenities := ["Partially Furnished", "Laundry", "Balcony"]
     images := ["https://images.unsplash.com/photo-1560448204-e02f11c3d0e2?ixlib=rb-1.2.1&auto=format&fit=crop&w=800&q=80"]
     isFeatured := true
     isPublic := true
     rating := 46
     createdAt := now },
   { id := 3
     userId := 3
     title := "Cozy Room in Brownstone"
     description := "Charming room in a historic brownstone with lots of character. Shared living room and kitchen with 3 creative professionals. Great for artists!"
     location := "Park Slope, Brooklyn"
     price := 1100
     roomType := "Private Room"
     roommates := 3
     availableFrom := "2023-10-15"
     amenities := ["Furnished", "Garden Access", "Pets Allowed"]
     images := ["https://images.unsplash.com/photo-1502672260266-1c1ef2d93688?ixlib=rb-1.2.1&auto=format&fit=crop&w=800&q=80"]
     isFeatured := true
     isPublic := true
     rating := 49
     createdAt := now }]

/-- The three seeded messages; the timestamps are three, two and one days
before the construction instant (truncated natural subtraction, which
agrees with the source for any realistic clock value). -/
def seedMessages (now : Nat) : List Message :=
  [{ id := 1
     senderId := 1
     receiverId := 2
     content := "Hi! I saw your profile and think we might be compatible roommates. Are you still looking?"
     read := true
     timestamp := now - 86400000 * 3 },
   { id := 2
     senderId := 2
     receiverId := 1
     content := "Hey Sarah! Yes, I\x27m still looking. Your profile looks great. Would you like to chat more about our preferences?"
     read := true
     timestamp := now - 86400000 * 2 },
   { id := 3
     senderId := 1
     receiverId := 2
     content := "Definitely! I noticed we both prefer a clean living space. What are your typical work hours like?"
     read := false
     timestamp := now - 86400000 }]

/-- The MemStorage constructor: empty maps and counters at 1, then the
development seed of three users, three roommate extensions, three listings,
three messages and one conversation pointer, leaving every counter at 4
except the badge counter. -/
def mkMemStorage (now : Nat) : MemStorage :=
  { users := [seedUser1 now, seedUser2 now, seedUser3 now]
    roommates :=
      [(1, { isLookingForRoom := true, budget := some 1200,
             moveInDate := some "2023-09-01", duration := some "1 year",
             compatibilityScore := some 89 }),
       (2, { isLookingForRoom := true, budget := some 1350,
             moveInDate := some "2023-08-15", duration := some "6+ months",
             compatibilityScore := some 85 }),
       (3, { isLookingForRoom := true, budget := some 1100,
             moveInDate := some "2023-10-01", duration := some "1+ year",
             compatibilityScore := some 82 })]
    listings := seedListings now
    messages := seedMessages now
    conversations := [(conversationKey 1 2, { lastMessageId := 3, updatedAt := now - 86400000 })]
    badges := []
    userId := 4
    listingId := 4
    messageId := 4
    badgeId := 1 }

/-- The overall formula exactly as the specification words it: round-half-up
applied once to the weighted sum of the three sub-scores, over the exact
rationals.  Stated for comparison with the overallScore of the model. -/
def specWeightedOverall (lifestyle location schedule : Nat) : ℤ :=
  round ((0.5 : ℚ) * lifestyle + (0.3 : ℚ) * location + (0.2 : ℚ) * schedule)

/-- The filled-signal count exactly as the specification words it: each of
the nine signals counts iff its value is present and non-empty, so an empty
string contributes nothing.  Stated for comparison with memFilledCount. -/
def specFilledCount (user : User) : Nat :=
  (([strTruthy user.firstName, strTruthy user.lastName, user.age.isSome,
      strTruthy user.gender, strTruthy user.occupation, strTruthy user.location,
      strTruthy user.bio, decide (user.preferences.length > 0),
      strTruthy user.profileImage].filter (fun b => b)).length)

/-- The raw (unsorted) message thread between two users, in stored order. -/
def pairMessages (s : MemStorage) (userId otherUserId : Nat) : List Message :=
  s.messages.filter (pairPred userId otherUserId)

/-- The per-user badge uniqueness invariant: no stored user holds two badge
awards with the same badge id. -/
def UserBadgesOk (s : MemStorage) : Prop :=
  ∀ u ∈ s.users, (u.userBadges.map (fun b => b.id)).Nodup

/-- A user whose only non-null profile signal is an empty first name; the
distinguishing input for the completion-count claim. -/
def emptyNameUser : User :=
  { id := 1
    username := "empty_name"
    password := hashPassword "pw"
    firstName := some ""
    lastName := none
    age := none
    gender := none
    occupation := none
    location := none
    bio := none
    preferences := []
    profileImage := none
    isVerified := false
    profileCompletion := 0
    userBadges := []
    createdAt := 0 }

/-- A one-user store holding only emptyNameUser. -/
def emptyNameStore : MemStorage :=
  { users := [emptyNameUser]
    roommates := []
    listings := []
    messages := []
    conversations := []
    badges := []
    userId := 2
    listingId := 1
    messageId := 1
    badgeId := 1 }

/-- A badge award snapshot used to build a duplicated badge list. -/
def dupAward : UserBadge :=
  { id := 1
    name := "Profile Starter"
    description := "Completed 25% of your profile"
    icon := "üèÖ"
    category := "profile"
    awardedAt := 0 }

/-- A partial profile update that overwrites the badge list with two awards
carrying the same badge id. -/
def dupBadgeUpd : UpdateUserProfile :=
  { userBadges := some [dupAward, dupAward] }

/-- A demonstration catalog badge. -/
def demoBadge : Badge :=
  { id := 1
    name := "Demo"
    description := "A demonstration badge"
    icon := "*"
    category := "profile"
    criteria := "none"
    requiredPoints := 1 }

/-- The seeded store extended with one catalog badge, so that awardBadge
has an existing target. -/
def seededWithBadge : MemStorage :=
  { mkMemStorage 0 with badges := [demoBadge], badgeId := 2 }

/-- A concrete user for the compatibility scenario: four distinct tags in
play, two of them shared, identical locations, both early birds. -/
def scenarioUserA : User :=
  { emptyNameUser with
    id := 10
    username := "scenario_a"
    location := some "Downtown, New York"
    preferences := ["Early bird", "Clean", "Gym"] }

/-- The counterpart user of the compatibility scenario. -/
def scenarioUserB : User :=
  { emptyNameUser with
    id := 11
    username := "scenario_b"
    location := some "Downtown, New York"
    preferences := ["Early bird", "Clean", "Vegan"] }

/-- A database-backend state holding the three seeded listings plus one
private listing, for the visibility claims. -/
def dbListingState : DbStorage :=
  { messages := seedMessages 0
    listings := seedListings 0 ++
      [{ id := 4
         userId := 2
         title := "Hidden Loft"
         description := "A private draft listing"
         location := "Queens, New York"
         price := 900
         roomType := "Shared Room"
         roommates := 1
         availableFrom := "2023-11-01"
         amenities := []
         images := []
         isFeatured := false
         isPublic := false
         rating := 0
         createdAt := 0 }]
    users := []
    badges := []
    badgeSeq := 1 }

/-- The in-memory counterpart of dbListingState. -/
def memListingState : MemStorage :=
  { mkMemStorage 0 with listings := dbListingState.listings }

/-- DatabaseStorage.getUser: select the first users row with the id. -/
def DbStorage.getUser (s : DbStorage) (id : Nat) : Option User :=
  s.users.find? (fun u => u.id == id)

/-- DatabaseStorage.getBadgeById: select the first badges row with the id. -/
def DbStorage.getBadgeById (s : DbStorage) (id : Nat) : Option Badge :=
  s.badges.find? (fun b => b.id == id)

/-- An update statement on the users table: apply the set clause to every
row whose id matches. -/
def dbUpdateUsers (l : List User) (userId : Nat) (f : User → User) : List User :=
  l.map (fun u => if u.id == userId then f u else u)

/-- DatabaseStorage.awardBadge: none when the badge or the user is missing
(the source throws); when the user already holds the badge id the held
entry is returned and nothing changes, otherwise the users row is updated
with the snapshot appended. -/
def DbStorage.awardBadge (s : DbStorage) (userId badgeId now : Nat) :
    Option (UserBadge × DbStorage) :=
  match DbStorage.getBadgeById s badgeId with
  | none => none
  | some badge =>
    match DbStorage.getUser s userId with
    | none => none
    | some user =>
      if user.userBadges.any (fun b => b.id == badgeId) then
        match user.userBadges.find? (fun b => b.id == badgeId) with
        | some held => some (held, s)
        | none => none
      else
        let userBadge : UserBadge :=
          { id := badge.id
            name := badge.name
            description := badge.description
            icon := badge.icon
            category := badge.category
            awardedAt := now }
        some (userBadge,
          { s with users :=
                     dbUpdateUsers s.users userId
                       (fun u =>
                         { u with userBadges := user.userBadges ++ [userBadge] }) })

/-- The state reached by the persistent awardBadge, identical on throw. -/
def dbAwardState (s : DbStorage) (userId badgeId now : Nat) : DbStorage :=
  match DbStorage.awardBadge s userId badgeId now with
  | some r => r.2
  | none => s

/-- One threshold step of the persistent checkProfileCompletionBadges: find
the catalog badge by name among all badges, inserting it at the next serial
id when absent, then award it. -/
def DbStorage.ensureCompletionBadge (s : DbStorage) (userId now : Nat)
    (nm descr ic : String) (pts : Nat) : DbStorage :=
  match s.badges.find? (fun b => b.name == nm) with
  | some b => dbAwardState s userId b.id now
  | none =>
    let b := completionBadge s.badgeSeq nm descr ic pts
    let s1 := { s with badges := s.badges ++ [b], badgeSeq := s.badgeSeq + 1 }
    dbAwardState s1 userId b.id now

/-- DatabaseStorage.checkProfileCompletionBadges: the four cumulative
thresholds in ascending order. -/
def DbStorage.checkProfileCompletionBadges (s : DbStorage)
    (userId completion now : Nat) : DbStorage :=
  let s1 := if 25 ≤ completion then
      DbStorage.ensureCompletionBadge s userId now "Profile Starter"
        "Completed 25% of your profile" "üèÖ" 25
    else s
  let s2 := if 50 ≤ completion then
      DbStorage.ensureCompletionBadge s1 userId now "Halfway There"
        "Completed 50% of your profile" "ü•à" 50
    else s1
  let s3 := if 75 ≤ completion then
      DbStorage.ensureCompletionBadge s2 userId now "Almost Complete"
        "Completed 75% of your profile" "ü•á" 75
    else s2
  if completion == 100 then
    DbStorage.ensureCompletionBadge s3 userId now "Profile Master"
      "Completed 100% of your profile" "üèÜ" 100
  else s3

/-- DatabaseStorage.calculateProfileCompletion: none for a missing user;
otherwise the rounded percentage of the truthiness-counted signals out of
nine; the users row is updated and the badge thresholds evaluated only when
the stored percentage differs (the source guards both behind the
inequality check). -/
def DbStorage.calculateProfileCompletion (s : DbStorage) (userId now : Nat) :
    Option (Nat × DbStorage) :=
  match DbStorage.getUser s userId with
  | none => none
  | some user =>
    let completion := roundHalfUpDiv (100 * dbFilledCount user) 9
    if user.profileCompletion == completion then some (completion, s)
    else
      let s1 := { s with users :=
                           dbUpdateUsers s.users userId
                             (fun u => { u with profileCompletion := completion }) }
      some (completion, DbStorage.checkProfileCompletionBadges s1 userId completion now)

/-- The strict before-relation of the persistent per-pair message sort:
strictly later timestamp comes first (descending). -/
def dbTimeBefore (x m : Message) : Bool :=
  decide (m.timestamp < x.timestamp)

/-- The message the persistent aggregator reports as latest, the head of
the stable descending sort: walking the log, a later entry replaces the
champion only when its timestamp is strictly larger, so the result is the
maximum by timestamp with ties resolved to the earliest stored position. -/
def latestOfDb : List Message → Option Message
  | [] => none
  | x :: xs =>
    match latestOfDb xs with
    | none => some x
    | some y => some (if decide (x.timestamp < y.timestamp) then y else x)

/-- JavaScript value-or-undefined on an optional string: an empty string is
falsy and becomes undefined. -/
def imageOrUndefined : Option String → Option String
  | none => none
  | some s => if s == "" then none else some s

/-- Every message of the persistent log in which the user takes part, in
row order. -/
def DbStorage.userMessages (s : DbStorage) (userId : Nat) : List Message :=
  s.messages.filter (fun m => m.senderId == userId || m.receiverId == userId)

/-- The distinct conversation partners in the persistent backend, in order
of first appearance. -/
def DbStorage.conversationPartners (s : DbStorage) (userId : Nat) : List Nat :=
  dedupFirst ((DbStorage.userMessages s userId).map (partnerOf userId))

/-- The raw message thread between two users in the persistent log. -/
def DbStorage.pairMessages (s : DbStorage) (userId otherUserId : Nat) : List Message :=
  s.messages.filter (pairPred userId otherUserId)

/-- DatabaseStorage.getConversations: one entry per distinct correspondent
whose users row resolves; the latest message is the head of the stable
descending per-pair sort; entries sorted by most recent message first. -/
def DbStorage.getConversations (s : DbStorage) (userId : Nat) : List Conversation :=
  let entries := (DbStorage.conversationPartners s userId).filterMap (fun partnerId =>
    match DbStorage.getUser s partnerId with
    | none => none
    | some partner =>
      match (sortKeep dbTimeBefore
          ((DbStorage.userMessages s userId).filter (pairPred userId partnerId))).head? with
      | none => none
      | some latestMessage =>
        some { userId := partnerId
               name := displayName partner
               profileImage := imageOrUndefined partner.profileImage
               lastMessage := latestMessage.content
               lastMessageTime := latestMessage.timestamp
               read := latestMessage.senderId == userId || latestMessage.read })
  sortKeep convBefore entries

/-- A one-user persistent store holding only emptyNameUser, for the
completion formula. -/
def dbCalcStore : DbStorage :=
  { messages := []
    listings := []
    users := [emptyNameUser]
    badges := []
    badgeSeq := 1 }

/-- A second small user for the persistent tie-break state. -/
def cDbUserB : User :=
  { emptyNameUser with id := 2, username := "db_b" }

/-- A persistent store whose two messages between users 1 and 2 share one
timestamp, exposing the tie behaviour of the descending sort. -/
def cDbTie : DbStorage :=
  { messages :=
      [{ id := 1, senderId := 1, receiverId := 2, content := "first",
         read := false, timestamp := 100 },
       { id := 2, senderId := 2, receiverId := 1, content := "second",
         read := true, timestamp := 100 }]
    listings := []
    users := [cDbUserB]
    badges := []
    badgeSeq := 1 }

/-- The message the aggregator reports as latest: walking the log, a later
entry replaces the current champion when its timestamp is at least as
large, so the result is the maximum by timestamp with ties resolved to the
latest stored position. -/
def latestOf : List Message → Option Message
  | [] => none
  | x :: xs =>
    match latestOf xs with
    | none => some x
    | some y => some (if decide (y.timestamp < x.timestamp) then x else y)

theorem insertKeep_perm {α : Type} (bf : α → α → Bool) (m : α) (l : List α) :
    (insertKeep bf m l).Perm (m :: l) := by
  induction l with
  | nil => simp [insertKeep]
  | cons x xs ih =>
    simp only [insertKeep]
    by_cases h : bf x m
    · rw [if_pos h]
      exact (ih.cons x).trans (List.Perm.swap m x xs)
    · rw [if_neg h]

theorem sortKeep_perm {α : Type} (bf : α → α → Bool) (l : List α) :
    (sortKeep bf l).Perm l := by
  induction l with
  | nil => simp [sortKeep]
  | cons x xs ih =>
    exact (insertKeep_perm bf x (sortKeep bf xs)).trans (ih.cons x)

theorem mem_sortKeep {α : Type} (bf : α → α → Bool) (l : List α) (a : α) :
    a ∈ sortKeep bf l ↔ a ∈ l :=
  (sortKeep_perm bf l).mem_iff

theorem insertKeep_pairwise {α : Type} (bf : α → α → Bool)
    (hA : ∀ a b, bf a b = true → bf b a = false)
    (hB : ∀ a b c, bf a b = false → bf c a = false → bf c b = false)
    (m : α) (l : List α) (hl : l.Pairwise (fun a b => bf b a = false)) :
    (insertKeep bf m l).Pairwise (fun a b => bf b a = false) := by
  induction l with
  | nil => simp [insertKeep]
  | cons x xs ih =>
    rw [List.pairwise_cons] at hl
    obtain ⟨hx, hxs⟩ := hl
    simp only [insertKeep]
    by_cases h : bf x m
    · rw [if_pos h]
      rw [List.pairwise_cons]
      refine ⟨?_, ih hxs⟩
      intro y hy
      have hy2 : y ∈ m :: xs := (insertKeep_perm bf m xs).mem_iff.mp hy
      rcases List.mem_cons.mp hy2 with heq | hy3
      · rw [heq]
        exact hA x m h
      · exact hx y hy3
    · rw [if_neg h]
      rw [List.pairwise_cons]
      refine ⟨?_, List.pairwise_cons.mpr ⟨hx, hxs⟩⟩
      intro y hy
      have hxm : bf x m = false := by
        exact Bool.eq_false_iff.mpr h
      rcases List.mem_cons.mp hy with heq | hy2
      · rw [heq]
        exact hxm
      · exact hB x m y hxm (hx y hy2)

theorem sortKeep_pairwise {α : Type} (bf : α → α → Bool)
    (hA : ∀ a b, bf a b = true → bf b a = false)
    (hB : ∀ a b c, bf a b = false → bf c a = false → bf c b = false)
    (l : List α) :
    (sortKeep bf l).Pairwise (fun a b => bf b a = false) := by
  induction l with
  | nil => simp [sortKeep]
  | cons x xs ih =>
    exact insertKeep_pairwise bf hA hB x (sortKeep bf xs) ih

theorem insertKeep_eq_append {α : Type} (bf : α → α → Bool) (m : α) (l : List α) :
    insertKeep bf m l =
      l.takeWhile (fun x => bf x m) ++ m :: l.dropWhile (fun x => bf x m) := by
  induction l with
  | nil => simp [insertKeep]
  | cons x xs ih =>
    simp only [insertKeep, List.takeWhile_cons, List.dropWhile_cons]
    by_cases h : bf x m
    · simp only [h, if_true, List.cons_append, ih]
    · simp only [h, if_false]
      rfl

theorem filter_insertKeep {α : Type} (bf : α → α → Bool) (p : α → Bool) (m : α)
    (l : List α) (h : p m = true → ∀ x, bf x m = true → p x = false) :
    (insertKeep bf m l).filter p = if p m then m :: l.filter p else l.filter p := by
  rw [insertKeep_eq_append, List.filter_append]
  by_cases hm : p m
  · have htw : (l.takeWhile (fun x => bf x m)).filter p = [] := by
      rw [List.filter_eq_nil_iff]
      intro a ha
      have hbf : bf a m = true := by
        have hb := List.mem_takeWhile_imp ha
        simpa using hb
      simp [h hm a hbf]
    rw [if_pos hm, htw, List.filter_cons, if_pos hm]
    have hsplit :
        l.filter p =
          (l.takeWhile (fun x => bf x m)).filter p ++
            (l.dropWhile (fun x => bf x m)).filter p := by
      rw [← List.filter_append, List.takeWhile_append_dropWhile]
    rw [hsplit, htw]
    simp
  · have hm' : p m = false := Bool.eq_false_iff.mpr hm
    rw [if_neg hm, List.filter_cons, if_neg hm]
    rw [← List.filter_append, List.takeWhile_append_dropWhile]

theorem filter_sortKeep {α : Type} (bf : α → α → Bool) (p : α → Bool)
    (h : ∀ m, p m = true → ∀ x, bf x m = true → p x = false) (l : List α) :
    (sortKeep bf l).filter p = l.filter p := by
  induction l with
  | nil => rfl
  | cons x xs ih =>
    simp only [sortKeep]
    rw [filter_insertKeep bf p x (sortKeep bf xs) (h x)]
    by_cases hx : p x
    · rw [if_pos hx, ih, List.filter_cons, if_pos hx]
    · rw [if_neg hx, ih, List.filter_cons, if_neg hx]

theorem insertKeep_ne_nil {α : Type} (bf : α → α → Bool) (m : α) (l : List α) :
    insertKeep bf m l ≠ [] := by
  cases l with
  | nil => simp [insertKeep]
  | cons x xs =>
    simp only [insertKeep]
    by_cases h : bf x m
    · rw [if_pos h]
      simp
    · rw [if_neg h]
      simp

theorem getLast?_insertKeep {α : Type} (bf : α → α → Bool)
    (hB : ∀ a b c, bf a b = false → bf c a = false → bf c b = false)
    (m : α) (l : List α) (hl : l.Pairwise (fun a b => bf b a = false)) :
    (insertKeep bf m l).getLast? =
      some (match l.getLast? with
            | none => m
            | some y => if bf y m then m else y) := by
  induction l with
  | nil => simp [insertKeep]
  | cons x xs ih =>
    rw [List.pairwise_cons] at hl
    obtain ⟨hx, hxs⟩ := hl
    simp only [insertKeep]
    by_cases h : bf x m
    · rw [if_pos h]
      cases xs with
      | nil =>
        simp [insertKeep, h]
      | cons w ws =>
        obtain ⟨z, zs, hzz⟩ :=
          List.exists_cons_of_ne_nil (insertKeep_ne_nil bf m (w :: ws))
        have hih := ih hxs
        rw [hzz, List.getLast?_cons_cons, ← hzz, hih, List.getLast?_cons_cons]
    · rw [if_neg h]
      have hxm : bf x m = false := Bool.eq_false_iff.mpr h
      obtain ⟨y, hy⟩ : ∃ y, (x :: xs).getLast? = some y := by
        cases xs with
        | nil => exact ⟨x, rfl⟩
        | cons w ws =>
          rw [List.getLast?_cons_cons]
          exact ⟨(w :: ws).getLast (by simp), List.getLast?_eq_getLast (w :: ws) (by simp)⟩
      rw [List.getLast?_cons_cons, hy]
      have hym : bf y m = false := by
        have hmem : y ∈ x :: xs := List.mem_of_mem_getLast? (by rw [hy]; rfl)
        rcases List.mem_cons.mp hmem with heq | hmem2
        · rw [heq]
          exact hxm
        · exact hB x m y hxm (hx y hmem2)
      show some y = some (if bf y m = true then m else y)
      rw [hym]
      simp

theorem timeBefore_asym :
    ∀ a b : Message, timeBefore a b = true → timeBefore b a = false := by
  intro a b h
  simp only [timeBefore, decide_eq_true_eq] at h
  simp only [timeBefore, decide_eq_false_iff_not]
  omega

theorem timeBefore_chain :
    ∀ a b c : Message, timeBefore a b = false → timeBefore c a = false →
      timeBefore c b = false := by
  intro a b c h1 h2
  simp only [timeBefore, decide_eq_false_iff_not] at h1 h2 ⊢
  omega

theorem getLast?_sortKeep_timeBefore (l : List Message) :
    (sortKeep timeBefore l).getLast? = latestOf l := by
  induction l with
  | nil => rfl
  | cons x xs ih =>
    simp only [sortKeep, latestOf]
    rw [getLast?_insertKeep timeBefore timeBefore_chain x (sortKeep timeBefore xs)
      (sortKeep_pairwise timeBefore timeBefore_asym timeBefore_chain xs), ih]
    cases hxs : latestOf xs with
    | none => rfl
    | some y => simp only [timeBefore]

theorem latestOf_eq_none (l : List Message) : latestOf l = none ↔ l = [] := by
  cases l with
  | nil => simp [latestOf]
  | cons x xs =>
    simp only [latestOf]
    cases latestOf xs <;> simp

theorem latestOf_spec (l : List Message) :
    l.Pairwise (fun a b => a.id < b.id) → ∀ m : Message, latestOf l = some m →
    m ∈ l ∧ ∀ x ∈ l, x.timestamp < m.timestamp ∨
      (x.timestamp = m.timestamp ∧ x.id ≤ m.id) := by
  induction l with
  | nil =>
    intro _ m hm
    simp [latestOf] at hm
  | cons a as ih =>
    intro hids m hm
    rw [List.pairwise_cons] at hids
    obtain ⟨ha, has⟩ := hids
    simp only [latestOf] at hm
    cases hlast : latestOf as with
    | none =>
      rw [hlast] at hm
      have hnil : as = [] := (latestOf_eq_none as).mp hlast
      injection hm with hm2
      constructor
      · rw [← hm2]
        exact List.mem_cons_self a as
      · intro x hx
        rw [hnil] at hx
        rcases List.mem_cons.mp hx with heq | habs
        · right
          rw [heq, ← hm2]
          exact ⟨rfl, Nat.le_refl _⟩
        · simp at habs
    | some y =>
      rw [hlast] at hm
      obtain ⟨hymem, hymax⟩ := ih has y hlast
      injection hm with hm2
      by_cases ht : y.timestamp < a.timestamp
      · rw [if_pos (decide_eq_true ht)] at hm2
        constructor
        · rw [← hm2]
          exact List.mem_cons_self a as
        · intro x hx
          rcases List.mem_cons.mp hx with heq | hxs
          · right
            rw [heq, ← hm2]
            exact ⟨rfl, Nat.le_refl _⟩
          · left
            rw [← hm2]
            rcases hymax x hxs with hlt | ⟨heq2, _⟩
            · omega
            · omega
      · rw [if_neg (by simpa using ht)] at hm2
        constructor
        · rw [← hm2]
          exact List.mem_cons_of_mem a hymem
        · intro x hx
          rcases List.mem_cons.mp hx with heq | hxs
          · rw [heq, ← hm2]
            have hay : a.id < y.id := ha y hymem
            rcases Nat.lt_or_ge a.timestamp y.timestamp with h1 | h1
            · left
              exact h1
            · right
              exact ⟨Nat.le_antisymm (Nat.le_of_not_lt ht) h1, Nat.le_of_lt hay⟩
          · rw [← hm2]
            exact hymax x hxs

theorem find?_key_eq_some {α : Type} (key : α → Nat) (l : List α) (id : Nat) (a : α)
    (hnd : (l.map key).Nodup) :
    l.find? (fun x => key x == id) = some a ↔ a ∈ l ∧ key a = id := by
  induction l with
  | nil => simp
  | cons x xs ih =>
    rw [List.map_cons, List.nodup_cons] at hnd
    obtain ⟨hx, hxs⟩ := hnd
    by_cases h : key x == id
    · simp only [List.find?, h]
      constructor
      · intro hsome
        injection hsome with hsome
        rw [← hsome]
        exact ⟨List.mem_cons_self x xs, by simpa using h⟩
      · rintro ⟨hmem, hkey⟩
        rcases List.mem_cons.mp hmem with heq | hmem2
        · rw [heq]
        · exfalso
          apply hx
          have hxa : key x = key a := by
            have hxid : key x = id := by simpa using h
            rw [hxid, hkey]
          rw [hxa]
          exact List.mem_map_of_mem key hmem2
    · have h2 : (key x == id) = false := Bool.eq_false_iff.mpr h
      simp only [List.find?, h2]
      rw [ih hxs]
      constructor
      · rintro ⟨hmem, hkey⟩
        exact ⟨List.mem_cons_of_mem x hmem, hkey⟩
      · rintro ⟨hmem, hkey⟩
        rcases List.mem_cons.mp hmem with heq | hmem2
        · exfalso
          apply h
          rw [heq] at hkey
          simp [hkey]
        · exact ⟨hmem2, hkey⟩

theorem find?_eq_none_of_key {α : Type} (key : α → Nat) (l : List α) (id : Nat)
    (h : ∀ a ∈ l, ¬(key a = id)) :
    l.find? (fun x => key x == id) = none := by
  rw [List.find?_eq_none]
  intro a ha
  simpa using h a ha

/-- C10: a freshly constructed volatile backend is seeded: it holds exactly
the three sample users with ids 1, 2, 3 and handles sarah_j, alex_dev and
jamie_g, three roommate extensions, three listings and three messages, and
the user id counter starts past the seeds, so the first createUser call on
a fresh store returns a user with id 4. -/
theorem C10_seeded_constructor (now later : Nat) :
    (mkMemStorage now).users.map (fun u => u.id) = [1, 2, 3] ∧
    (mkMemStorage now).users.map (fun u => u.username) =
      ["sarah_j", "alex_dev", "jamie_g"] ∧
    (mkMemStorage now).roommates.map (fun kv => kv.1) = [1, 2, 3] ∧
    (mkMemStorage now).listings.map (fun l => l.id) = [1, 2, 3] ∧
    (mkMemStorage now).messages.map (fun m => m.id) = [1, 2, 3] ∧
    (mkMemStorage now).userId = 4 ∧
    ((mkMemStorage now).createUser { username := "new_user", password := "pw" } later).1.id = 4 :=
  ⟨rfl, rfl, rfl, rfl, rfl, rfl, rfl⟩

/-- C9: getUserListings returns exactly the listings owned by the requested
user in both backends, with no visibility condition: membership depends only
on ownership, so private listings of any user are returned to any caller. -/
theorem C9_user_listings_ignore_visibility (s : MemStorage) (d : DbStorage)
    (userId : Nat) (l : Listing) :
    (l ∈ MemStorage.getUserListings s userId ↔ l ∈ s.listings ∧ l.userId = userId) ∧
    (l ∈ DbStorage.getUserListings d userId ↔ l ∈ d.listings ∧ l.userId = userId) := by
  constructor
  · simp [MemStorage.getUserListings, List.mem_filter]
  · simp [DbStorage.getUserListings, List.mem_filter]

/-- C2 counterexample: createUser itself never checks the handle.  On the
seeded store, whose handle sarah_j is taken, createUser succeeds, grows the
store and leaves two stored users with the same handle. -/
theorem C2_createUser_inserts_duplicate :
    (MemStorage.getUserByUsername (mkMemStorage 0) "sarah_j").isSome = true ∧
    (mkMemStorage 0).users.length = 3 ∧
    ((mkMemStorage 0).createUser { username := "sarah_j", password := "pw2" } 0).2.users.length = 4 ∧
    (((mkMemStorage 0).createUser { username := "sarah_j", password := "pw2" } 0).2.users.filter
      (fun u => u.username == "sarah_j")).length = 2 := by
  refine ⟨by decide, by decide, by decide, by decide⟩

/-- C2 as amended: the duplicate-handle rejection lives in the registration
route, which refuses when the handle resolves and otherwise delegates to
createUser; on a fresh handle the created user carries the hashed
credential, zero completion, empty preferences, empty badge list and an
unverified flag, and is appended to the store. -/
theorem C2_register_duplicate_and_defaults (s : MemStorage) (iu : InsertUser) (now : Nat) :
    ((MemStorage.getUserByUsername s iu.username).isSome = true →
      registerUser s iu now = none) ∧
    (MemStorage.getUserByUsername s iu.username = none →
      (∀ u ∈ s.users, u.id < s.userId) →
      ∃ u, registerUser s iu now =
          some (u, { s with users := s.users ++ [u], userId := s.userId + 1 }) ∧
        u.username = iu.username ∧ u.password = hashPassword iu.password ∧
        u.profileCompletion = 0 ∧ u.preferences = [] ∧ u.userBadges = [] ∧
        u.isVerified = false ∧ u.id = s.userId) := by
  constructor
  · intro h
    cases hu : MemStorage.getUserByUsername s iu.username with
    | none =>
      rw [hu] at h
      simp at h
    | some u =>
      simp [registerUser, hu]
  · intro hnone hidlt
    refine ⟨{ id := s.userId, username := iu.username,
              password := hashPassword iu.password, firstName := none,
              lastName := none, age := none, gender := none, occupation := none,
              location := none, bio := none, preferences := [],
              profileImage := none, isVerified := false, profileCompletion := 0,
              userBadges := [], createdAt := now },
      ?_, rfl, rfl, rfl, rfl, rfl, rfl, rfl⟩
    have hany : s.users.any (fun x => x.id == s.userId) = false := by
      rw [List.any_eq_false]
      intro x hx
      have hlt := hidlt x hx
      simp only [beq_iff_eq]
      omega
    simp only [registerUser, hnone, MemStorage.createUser]
    rw [setUser, if_neg (by rw [hany]; exact Bool.false_ne_true)]

/-- C2 witness: registering the fresh handle fresh_handle on the seeded
store satisfies both hypotheses and yields the appended defaulted user. -/
theorem C2_register_witness :
    (MemStorage.getUserByUsername (mkMemStorage 0)
        ({ username := "fresh_handle", password := "pw" } : InsertUser).username = none) ∧
    (∀ u ∈ (mkMemStorage 0).users, u.id < (mkMemStorage 0).userId) ∧
    (∃ u, registerUser (mkMemStorage 0) { username := "fresh_handle", password := "pw" } 7 =
        some (u, { mkMemStorage 0 with
                   users := (mkMemStorage 0).users ++ [u],
                   userId := (mkMemStorage 0).userId + 1 }) ∧
      u.username = ({ username := "fresh_handle", password := "pw" } : InsertUser).username ∧
      u.password = hashPassword ({ username := "fresh_handle", password := "pw" } : InsertUser).password ∧
      u.profileCompletion = 0 ∧ u.preferences = [] ∧ u.userBadges = [] ∧
      u.isVerified = false ∧ u.id = (mkMemStorage 0).userId) :=
  ⟨by decide, by decide,
    (C2_register_duplicate_and_defaults (mkMemStorage 0)
      { username := "fresh_handle", password := "pw" } 7).2 (by decide) (by decide)⟩

theorem memGetListingById_found (s : MemStorage) (id : Nat) (viewer : Option Nat)
    (x : Listing) (hf : s.listings.find? (fun y => y.id == id) = some x) :
    MemStorage.getListingById s id viewer =
      if x.isPublic = true ∨ viewer = some x.userId then some x else none := by
  unfold MemStorage.getListingById
  rw [hf]
  dsimp only
  cases viewer with
  | none =>
    by_cases hp : x.isPublic <;> simp [hp]
  | some v =>
    by_cases hp : x.isPublic
    · simp [hp]
    · by_cases hv : v = x.userId <;> simp [hp, hv]

theorem memGetListingById_missing (s : MemStorage) (id : Nat) (viewer : Option Nat)
    (hf : s.listings.find? (fun y => y.id == id) = none) :
    MemStorage.getListingById s id viewer = none := by
  unfold MemStorage.getListingById
  rw [hf]

theorem dbGetListingById_found (d : DbStorage) (id : Nat) (viewer : Option Nat)
    (x : Listing) (hf : d.listings.find? (fun y => y.id == id) = some x)
    (hpos : 0 < x.userId) :
    DbStorage.getListingById d id viewer =
      if x.isPublic = true ∨ viewer = some x.userId then some x else none := by
  unfold DbStorage.getListingById
  rw [hf]
  dsimp only
  have htr : natTruthy (some x.userId) = true := by
    simp only [natTruthy, Bool.not_eq_true', beq_eq_false_iff_ne, ne_eq]
    omega
  cases viewer with
  | none =>
    by_cases hp : x.isPublic <;> simp [hp, natTruthy]
  | some v =>
    by_cases hp : x.isPublic
    · simp [hp]
    · by_cases hv : v = x.userId
      · rw [hv]
        simp [hp, htr]
      · simp [hp, hv, natTruthy]

theorem dbGetListingById_missing (d : DbStorage) (id : Nat) (viewer : Option Nat)
    (hf : d.listings.find? (fun y => y.id == id) = none) :
    DbStorage.getListingById d id viewer = none := by
  unfold DbStorage.getListingById
  rw [hf]

/-- C3: in both backends getListingById returns a listing exactly when it is
stored under the requested id and is public or owned by the viewer, and a
stored private listing read by a non-owner (or by no viewer) yields the same
none as a missing id.  Listing ids are unique and owner ids positive (serial
keys), stated as hypotheses. -/
theorem C3_listing_visibility (s : MemStorage) (d : DbStorage) (id : Nat)
    (viewer : Option Nat) (l : Listing)
    (hmem : (s.listings.map (fun x => x.id)).Nodup)
    (hdb : (d.listings.map (fun x => x.id)).Nodup)
    (hdowner : ∀ x ∈ d.listings, 0 < x.userId) :
    (MemStorage.getListingById s id viewer = some l ↔
      l ∈ s.listings ∧ l.id = id ∧ (l.isPublic = true ∨ viewer = some l.userId)) ∧
    (DbStorage.getListingById d id viewer = some l ↔
      l ∈ d.listings ∧ l.id = id ∧ (l.isPublic = true ∨ viewer = some l.userId)) ∧
    (∀ x ∈ s.listings, x.id = id → x.isPublic = false → ¬(viewer = some x.userId) →
      MemStorage.getListingById s id viewer = none) ∧
    (∀ x ∈ d.listings, x.id = id → x.isPublic = false → ¬(viewer = some x.userId) →
      DbStorage.getListingById d id viewer = none) := by
  refine ⟨?_, ?_, ?_, ?_⟩
  · cases hf : s.listings.find? (fun y => y.id == id) with
    | none =>
      rw [memGetListingById_missing s id viewer hf]
      constructor
      · intro h
        simp at h
      · rintro ⟨hl, hid, _⟩
        have hsome := (find?_key_eq_some (fun y => y.id) s.listings id l hmem).mpr ⟨hl, hid⟩
        rw [hf] at hsome
        simp at hsome
    | some x =>
      obtain ⟨hxmem, hxid⟩ := (find?_key_eq_some (fun y => y.id) s.listings id x hmem).mp hf
      rw [memGetListingById_found s id viewer x hf]
      by_cases hv : x.isPublic = true ∨ viewer = some x.userId
      · rw [if_pos hv]
        constructor
        · intro h
          injection h with h
          rw [← h]
          exact ⟨hxmem, hxid, hv⟩
        · rintro ⟨hl, hid, _⟩
          have hsome := (find?_key_eq_some (fun y => y.id) s.listings id l hmem).mpr ⟨hl, hid⟩
          rw [hf] at hsome
          injection hsome with hsome
          rw [hsome]
      · rw [if_neg hv]
        constructor
        · intro h
          simp at h
        · rintro ⟨hl, hid, hvl⟩
          have hsome := (find?_key_eq_some (fun y => y.id) s.listings id l hmem).mpr ⟨hl, hid⟩
          rw [hf] at hsome
          injection hsome with hsome
          rw [← hsome] at hvl
          exact absurd hvl hv
  · cases hf : d.listings.find? (fun y => y.id == id) with
    | none =>
      rw [dbGetListingById_missing d id viewer hf]
      constructor
      · intro h
        simp at h
      · rintro ⟨hl, hid, _⟩
        have hsome := (find?_key_eq_some (fun y => y.id) d.listings id l hdb).mpr ⟨hl, hid⟩
        rw [hf] at hsome
        simp at hsome
    | some x =>
      obtain ⟨hxmem, hxid⟩ := (find?_key_eq_some (fun y => y.id) d.listings id x hdb).mp hf
      rw [dbGetListingById_found d id viewer x hf (hdowner x hxmem)]
      by_cases hv : x.isPublic = true ∨ viewer = some x.userId
      · rw [if_pos hv]
        constructor
        · intro h
          injection h with h
          rw [← h]
          exact ⟨hxmem, hxid, hv⟩
        · rintro ⟨hl, hid, _⟩
          have hsome := (find?_key_eq_some (fun y => y.id) d.listings id l hdb).mpr ⟨hl, hid⟩
          rw [hf] at hsome
          injection hsome with hsome
          rw [hsome]
      · rw [if_neg hv]
        constructor
        · intro h
          simp at h
        · rintro ⟨hl, hid, hvl⟩
          have hsome := (find?_key_eq_some (fun y => y.id) d.listings id l hdb).mpr ⟨hl, hid⟩
          rw [hf] at hsome
          injection hsome with hsome
          rw [← hsome] at hvl
          exact absurd hvl hv
  · intro x hxmem hxid hxpriv hxview
    have hf := (find?_key_eq_some (fun y => y.id) s.listings id x hmem).mpr ⟨hxmem, hxid⟩
    rw [memGetListingById_found s id viewer x hf, if_neg]
    rintro (h | h)
    · rw [hxpriv] at h
      exact absurd h (by simp)
    · exact hxview h
  · intro x hxmem hxid hxpriv hxview
    have hf := (find?_key_eq_some (fun y => y.id) d.listings id x hdb).mpr ⟨hxmem, hxid⟩
    rw [dbGetListingById_found d id viewer x hf (hdowner x hxmem), if_neg]
    rintro (h | h)
    · rw [hxpriv] at h
      exact absurd h (by simp)
    · exact hxview h

/-- C3 witness: on concrete stores holding the three public seeded listings
plus a private listing of user 2 with id 4, the hypotheses hold and the
private listing is visible to its owner yet none for another viewer. -/
theorem C3_listing_visibility_witness :
    ((memListingState.listings.map (fun x => x.id)).Nodup) ∧
    ((dbListingState.listings.map (fun x => x.id)).Nodup) ∧
    (∀ x ∈ dbListingState.listings, 0 < x.userId) ∧
    (∀ x ∈ memListingState.listings, x.id = 4 → x.isPublic = false →
      ¬((some 1 : Option Nat) = some x.userId) →
      MemStorage.getListingById memListingState 4 (some 1) = none) :=
  ⟨by decide, by decide, by decide,
    (C3_listing_visibility memListingState dbListingState 4 (some 1)
      ((seedListings 0).head (by decide)) (by decide) (by decide) (by decide)).2.2.1⟩

theorem find?_replaceById (l : List User) (u : User)
    (h : l.any (fun x => x.id == u.id) = true) :
    (l.map (fun x => if x.id == u.id then u else x)).find?
      (fun x => x.id == u.id) = some u := by
  induction l with
  | nil => simp at h
  | cons x xs ih =>
    rw [List.map_cons]
    by_cases hx : x.id == u.id
    · rw [if_pos hx]
      simp [List.find?]
    · rw [if_neg hx]
      have hx2 : (x.id == u.id) = false := Bool.eq_false_iff.mpr hx
      have h2 : xs.any (fun x => x.id == u.id) = true := by
        rcases List.any_eq_true.mp h with ⟨y, hy, hyp⟩
        rcases List.mem_cons.mp hy with heq | hmem
        · exfalso
          apply hx
          rw [← heq]
          exact hyp
        · exact List.any_eq_true.mpr ⟨y, hmem, hyp⟩
      simp only [List.find?, hx2]
      exact ih h2

theorem getUser_setUser_self (l : List User) (u : User) :
    (setUser l u).find? (fun x => x.id == u.id) = some u := by
  unfold setUser
  by_cases h : l.any (fun x => x.id == u.id)
  · rw [if_pos h]
    exact find?_replaceById l u h
  · rw [if_neg h]
    have hall : l.find? (fun x => x.id == u.id) = none := by
      rw [List.find?_eq_none]
      intro a ha hp
      apply h
      exact List.any_eq_true.mpr ⟨a, ha, hp⟩
    rw [List.find?_append, hall]
    simp [List.find?]

theorem getUser_setUser_other (l : List User) (u : User) (id : Nat)
    (hne : ¬(u.id = id)) :
    (setUser l u).find? (fun x => x.id == id) = l.find? (fun x => x.id == id) := by
  unfold setUser
  by_cases h : l.any (fun x => x.id == u.id)
  · rw [if_pos h]
    clear h
    induction l with
    | nil => rfl
    | cons x xs ih =>
      rw [List.map_cons]
      by_cases hx : x.id == u.id
      · rw [if_pos hx]
        have hxid : (x.id == id) = false := by
          have : x.id = u.id := by simpa using hx
          simp only [beq_eq_false_iff_ne, ne_eq, this]
          exact hne
        have huid : (u.id == id) = false := by
          simp only [beq_eq_false_iff_ne, ne_eq]
          exact hne
        simp only [List.find?, hxid, huid]
        exact ih
      · rw [if_neg hx]
        by_cases hxid : x.id == id
        · simp only [List.find?, hxid]
        · have hxid2 : (x.id == id) = false := Bool.eq_false_iff.mpr hxid
          simp only [List.find?, hxid2]
          exact ih
  · rw [if_neg h]
    rw [List.find?_append]
    have hu : [u].find? (fun x => x.id == id) = none := by
      have huid : (u.id == id) = false := by
        simp only [beq_eq_false_iff_ne, ne_eq]
        exact hne
      simp [List.find?, huid]
    rw [hu]
    cases l.find? (fun x => x.id == id) <;> rfl

theorem mem_setUser (l : List User) (u : User) (x : User)
    (hx : x ∈ setUser l u) : x ∈ l ∨ x = u := by
  unfold setUser at hx
  by_cases h : l.any (fun y => y.id == u.id)
  · rw [if_pos h] at hx
    rcases List.mem_map.mp hx with ⟨y, hy, hyx⟩
    by_cases hyid : y.id == u.id
    · rw [if_pos hyid] at hyx
      exact Or.inr hyx.symm
    · rw [if_neg hyid] at hyx
      rw [← hyx]
      exact Or.inl hy
  · rw [if_neg h] at hx
    rcases List.mem_append.mp hx with hmem | hmem
    · exact Or.inl hmem
    · rcases List.mem_cons.mp hmem with heq | habs
      · exact Or.inr heq
      · simp at habs

theorem getUser_id_eq (s : MemStorage) (userId : Nat) (user : User)
    (h : MemStorage.getUser s userId = some user) : user.id = userId := by
  have hp := List.find?_some h
  simpa using hp

theorem getUser_mem (s : MemStorage) (userId : Nat) (user : User)
    (h : MemStorage.getUser s userId = some user) : user ∈ s.users :=
  List.mem_of_find?_eq_some h

theorem awardState_cases (s : MemStorage) (userId badgeId now : Nat) :
    awardState s userId badgeId now = s ∨
    ∃ user badge, MemStorage.getUser s userId = some user ∧
      MemStorage.getBadgeById s badgeId = some badge ∧
      user.userBadges.any (fun b => b.id == badgeId) = false ∧
      awardState s userId badgeId now =
        { s with
          users := setUser s.users
                     { user with
                       userBadges := user.userBadges ++
                                       [{ id := badge.id, name := badge.name,
                                          description := badge.description,
                                          icon := badge.icon,
                                          category := badge.category,
                                          awardedAt := now }] } } := by
  unfold awardState MemStorage.awardBadge
  cases hu : MemStorage.getUser s userId with
  | none => exact Or.inl rfl
  | some user =>
    cases hb : MemStorage.getBadgeById s badgeId with
    | none => exact Or.inl rfl
    | some badge =>
      dsimp only
      by_cases hhas : user.userBadges.any (fun b => b.id == badgeId)
      · rw [if_pos hhas]
        exact Or.inl rfl
      · rw [if_neg hhas]
        exact Or.inr ⟨user, badge, rfl, rfl, Bool.eq_false_iff.mpr hhas, rfl⟩

theorem getUser_setUser_pc (s : MemStorage) (user upd : User) (id2 : Nat)
    (hu : MemStorage.getUser s user.id = some user)
    (hid : upd.id = user.id) (hpc : upd.profileCompletion = user.profileCompletion) :
    ((setUser s.users upd).find? (fun x => x.id == id2)).map
      (fun v => v.profileCompletion) =
    (MemStorage.getUser s id2).map (fun v => v.profileCompletion) := by
  by_cases h : upd.id = id2
  · unfold MemStorage.getUser at hu ⊢
    rw [← h, getUser_setUser_self]
    rw [hid, hu]
    simp [hpc]
  · rw [getUser_setUser_other s.users upd id2 h]
    rfl

theorem awardState_pc (s : MemStorage) (userId badgeId now id2 : Nat) :
    (MemStorage.getUser (awardState s userId badgeId now) id2).map
      (fun v => v.profileCompletion) =
    (MemStorage.getUser s id2).map (fun v => v.profileCompletion) := by
  rcases awardState_cases s userId badgeId now with heq | ⟨user, badge, hu, hb, hhas, heq⟩
  · rw [heq]
  · rw [heq]
    have hu2 : MemStorage.getUser s user.id = some user := by
      rw [getUser_id_eq s userId user hu]
      exact hu
    exact getUser_setUser_pc s user _ id2 hu2 rfl rfl

theorem ensure_pc (s : MemStorage) (userId now : Nat) (nm descr ic : String)
    (pts id2 : Nat) :
    (MemStorage.getUser (ensureBadgeAndAward s userId now nm descr ic pts) id2).map
      (fun v => v.profileCompletion) =
    (MemStorage.getUser s id2).map (fun v => v.profileCompletion) := by
  unfold ensureBadgeAndAward
  cases hf : s.badges.find? (fun b => b.name == nm) with
  | some b => exact awardState_pc s userId b.id now id2
  | none =>
    dsimp only
    rw [awardState_pc]
    rfl

theorem checkBadges_pc (s : MemStorage) (userId completion now id2 : Nat) :
    (MemStorage.getUser
        (MemStorage.checkProfileCompletionBadges s userId completion now) id2).map
      (fun v => v.profileCompletion) =
    (MemStorage.getUser s id2).map (fun v => v.profileCompletion) := by
  unfold MemStorage.checkProfileCompletionBadges
  by_cases h1 : 25 ≤ completion <;> by_cases h2 : 50 ≤ completion <;>
    by_cases h3 : 75 ≤ completion <;> by_cases h4 : completion == 100 <;>
    simp only [h1, h2, h3, h4, if_true, if_false, Bool.false_eq_true, ensure_pc]

/-- C5 counterexample: in the in-memory backend a present but empty first
name still counts as a filled signal.  On a user whose only non-null field
is an empty first name the operation returns 11, while the claimed
present-and-non-empty count yields round of 100 times 0 over 9, that is 0. -/
theorem C5_empty_string_still_counts :
    ((MemStorage.calculateProfileCompletion emptyNameStore 1 0).map
      (fun r => r.1) = some 11) ∧
    roundHalfUpDiv (100 * specFilledCount emptyNameUser) 9 = 0 ∧
    ¬((11 : Nat) = 0) := by
  refine ⟨by decide, by decide, by decide⟩

/-- C1 counterexample: the in-memory getMessages performs no read-marking.
On the seeded store, thread retrieval by user 2 against user 1 returns the
unread message with id 3 sent by 1 to 2, yet the store is returned
unchanged and that message is still stored unread afterwards. -/
theorem C1_mem_backend_never_marks_read :
    (((MemStorage.getMessages (mkMemStorage 259200000) 2 1).1.map
      (fun m => m.id)).contains 3 = true) ∧
    ((MemStorage.getMessages (mkMemStorage 259200000) 2 1).2 = mkMemStorage 259200000) ∧
    (((MemStorage.getMessages (mkMemStorage 259200000) 2 1).2.messages.filter
      (fun m => m.id == 3)).map (fun m => m.read) = [false]) := by
  refine ⟨by decide, rfl, by decide⟩

/-- C1 as amended: both backends return exactly the messages of the pair in
either direction, sorted ascending by timestamp; only the persistent
backend marks the stored messages from otherId to userId as read (and
touches nothing else), while the in-memory backend returns the store
completely unchanged. -/
theorem C1_messages_between (s : MemStorage) (d : DbStorage)
    (userId otherUserId : Nat) :
    ((MemStorage.getMessages s userId otherUserId).2 = s) ∧
    (∀ m, m ∈ (MemStorage.getMessages s userId otherUserId).1 ↔
      m ∈ s.messages ∧ pairPred userId otherUserId m = true) ∧
    ((MemStorage.getMessages s userId otherUserId).1.Pairwise
      (fun a b => a.timestamp ≤ b.timestamp)) ∧
    (∀ m, m ∈ (DbStorage.getMessages d userId otherUserId).1 ↔
      m ∈ d.messages ∧ pairPred userId otherUserId m = true) ∧
    ((DbStorage.getMessages d userId otherUserId).1.Pairwise
      (fun a b => a.timestamp ≤ b.timestamp)) ∧
    ((DbStorage.getMessages d userId otherUserId).2.messages =
      d.messages.map (fun m =>
        if m.senderId == otherUserId && m.receiverId == userId then
          { m with read := true }
        else m)) := by
  have hsorted : ∀ l : List Message,
      (sortKeep timeBefore l).Pairwise (fun a b => a.timestamp ≤ b.timestamp) := by
    intro l
    have hp := sortKeep_pairwise timeBefore timeBefore_asym timeBefore_chain l
    refine hp.imp ?_
    intro a b hab
    simp only [timeBefore, decide_eq_false_iff_not] at hab
    omega
  have hmemb : ∀ (l : List Message) m, m ∈ sortKeep timeBefore
      (l.filter (pairPred userId otherUserId)) ↔
      m ∈ l ∧ pairPred userId otherUserId m = true := by
    intro l m
    rw [mem_sortKeep, List.mem_filter]
  refine ⟨rfl, ?_, hsorted _, ?_, hsorted _, ?_⟩
  · intro m
    exact hmemb s.messages m
  · intro m
    exact hmemb d.messages m
  · show d.messages.map _ = d.messages.map _
    apply List.map_congr_left
    intro m hm
    by_cases hs : (m.senderId == otherUserId) = true
    · by_cases hrcv : (m.receiverId == userId) = true
      · cases hr : m.read
        · rw [if_pos (by rw [hs, hrcv]; rfl), if_pos (by rw [hs, hrcv]; rfl)]
        · rw [if_neg (by rw [hs, hrcv]; simp), if_pos (by rw [hs, hrcv]; rfl)]
          cases m
          simp_all
      · have hrcv2 := Bool.eq_false_iff.mpr hrcv
        rw [if_neg (by rw [hs, hrcv2]; simp), if_neg (by rw [hs, hrcv2]; simp)]
    · have hs2 := Bool.eq_false_iff.mpr hs
      rw [if_neg (by rw [hs2]; simp), if_neg (by rw [hs2]; simp)]

theorem roundHalfUpDiv_eq_round (n d : Nat) (hd : 0 < d) :
    ((roundHalfUpDiv n d : Nat) : ℤ) = round ((n : ℚ) / (d : ℚ)) := by
  have hd0 : (d : ℚ) ≠ 0 := Nat.cast_ne_zero.mpr (Nat.pos_iff_ne_zero.mp hd)
  have hx : (n : ℚ) / (d : ℚ) + 1 / 2 = ((2 * n + d : ℕ) : ℚ) / ((2 * d : ℕ) : ℚ) := by
    push_cast
    field_simp
    ring
  rw [round_eq, hx]
  have hnonneg : (0 : ℚ) ≤ ((2 * n + d : ℕ) : ℚ) / ((2 * d : ℕ) : ℚ) := by positivity
  rw [← Int.natCast_floor_eq_floor hnonneg, Nat.floor_div_nat, Nat.floor_natCast]
  rfl

/-- C4: the overall compatibility equals round-half-up applied once to the
exact weighted sum of the three sub-scores, and in the concrete scenario of
two users sharing exactly two of four distinct tags, with one identical
non-empty location and both carrying the Early bird tag, the engine yields
the sub-scores 50, 100 and 100 and the overall score 75. -/
theorem C4_weighted_overall_and_scenario (u r : User) (loc : String)
    (hc : (commonPreferences u r).length = 2)
    (ht : totalPreferences u r = 4)
    (hl1 : u.location = some loc) (hl2 : r.location = some loc)
    (hloc : ¬(loc = ""))
    (he1 : "Early bird" ∈ u.preferences) (he2 : "Early bird" ∈ r.preferences) :
    (∀ a b : User, ((computeCompatibility a b).overallScore : ℤ) =
      specWeightedOverall (computeCompatibility a b).lifestyleScore
        (computeCompatibility a b).locationScore
        (computeCompatibility a b).scheduleScore) ∧
    computeCompatibility u r =
      { lifestyleScore := 50, locationScore := 100, scheduleScore := 100,
        overallScore := 75, commonInterests := commonPreferences u r } := by
  constructor
  · intro a b
    simp only [computeCompatibility]
    unfold specWeightedOverall overallScore
    rw [roundHalfUpDiv_eq_round _ 10 (by norm_num)]
    congr 1
    push_cast
    ring
  · have hlife : lifestyleScore u r = 50 := by
      unfold lifestyleScore
      rw [ht, hc]
      norm_num [roundHalfUpDiv]
    have hlocs : locationScore u r = 100 := by
      unfold locationScore
      rw [hl1, hl2]
      dsimp only
      have hne : (loc == "") = false := by simpa using hloc
      rw [hne]
      simp
    have hsched : scheduleScore u r = 100 := by
      unfold scheduleScore
      have h1 : "Early bird" ∈ schedulePrefs u := by
        unfold schedulePrefs
        rw [List.mem_filter]
        exact ⟨he1, by decide⟩
      have h2 : "Early bird" ∈ schedulePrefs r := by
        unfold schedulePrefs
        rw [List.mem_filter]
        exact ⟨he2, by decide⟩
      rw [if_pos ⟨List.length_pos.mpr (List.ne_nil_of_mem h1),
        List.length_pos.mpr (List.ne_nil_of_mem h2)⟩]
      rw [if_pos]
      rw [List.any_eq_true]
      refine ⟨"Early bird", h1, ?_⟩
      simpa using h2
    simp only [computeCompatibility]
    rw [hlife, hlocs, hsched]
    rfl

/-- C4 witness: the scenario instantiated with two concrete users sharing
the tags Early bird and Clean out of four distinct tags, both located at
Downtown, New York. -/
theorem C4_weighted_overall_witness :
    ((commonPreferences scenarioUserA scenarioUserB).length = 2) ∧
    (totalPreferences scenarioUserA scenarioUserB = 4) ∧
    (scenarioUserA.location = some "Downtown, New York") ∧
    (scenarioUserB.location = some "Downtown, New York") ∧
    (¬(("Downtown, New York" : String) = "")) ∧
    ("Early bird" ∈ scenarioUserA.preferences) ∧
    ("Early bird" ∈ scenarioUserB.preferences) ∧
    ((∀ a b : User, ((computeCompatibility a b).overallScore : ℤ) =
      specWeightedOverall (computeCompatibility a b).lifestyleScore
        (computeCompatibility a b).locationScore
        (computeCompatibility a b).scheduleScore) ∧
    computeCompatibility scenarioUserA scenarioUserB =
      { lifestyleScore := 50, locationScore := 100, scheduleScore := 100,
        overallScore := 75,
        commonInterests := commonPreferences scenarioUserA scenarioUserB }) :=
  ⟨by decide, by decide, rfl, rfl, by decide, by decide, by decide,
    C4_weighted_overall_and_scenario scenarioUserA scenarioUserB "Downtown, New York"
      (by decide) (by decide) rfl rfl (by decide) (by decide) (by decide)⟩

theorem scoreBefore_asym :
    ∀ a b : ScoredRoommate, scoreBefore a b = true → scoreBefore b a = false := by
  intro a b h
  simp only [scoreBefore, decide_eq_true_eq] at h
  simp only [scoreBefore, decide_eq_false_iff_not]
  omega

theorem scoreBefore_chain :
    ∀ a b c : ScoredRoommate, scoreBefore a b = false → scoreBefore c a = false →
      scoreBefore c b = false := by
  intro a b c h1 h2
  simp only [scoreBefore, decide_eq_false_iff_not] at h1 h2 ⊢
  omega

/-- C8: topMatches never contains the requesting user, returns at most six
entries sorted non-increasing by overall score, the stable sort keeps
candidates of equal score in their original order, and for an existing
user the result is exactly the first six of the stable sort of the scored
candidate list. -/
theorem C8_top_matches (s : MemStorage) (userId : Nat) :
    (∀ r ∈ MemStorage.getTopMatches s userId, ¬(r.base.user.id = userId)) ∧
    ((MemStorage.getTopMatches s userId).length ≤ 6) ∧
    ((MemStorage.getTopMatches s userId).Pairwise
      (fun a b => b.compatibilityScore ≤ a.compatibilityScore)) ∧
    (∀ (user : User) (v : Nat),
      (sortKeep scoreBefore (scoredCandidates s user userId)).filter
        (fun x => x.compatibilityScore == v) =
      (scoredCandidates s user userId).filter (fun x => x.compatibilityScore == v)) ∧
    (∀ user, MemStorage.getUser s userId = some user →
      MemStorage.getTopMatches s userId =
        (sortKeep scoreBefore (scoredCandidates s user userId)).take 6) := by
  have hstab : ∀ user : User, ∀ v : Nat,
      (sortKeep scoreBefore (scoredCandidates s user userId)).filter
        (fun x => x.compatibilityScore == v) =
      (scoredCandidates s user userId).filter (fun x => x.compatibilityScore == v) := by
    intro user v
    apply filter_sortKeep
    intro m hm x hx
    simp only [beq_iff_eq] at hm
    simp only [scoreBefore, decide_eq_true_eq] at hx
    simp only [beq_eq_false_iff_ne, ne_eq]
    omega
  have hexcl : ∀ (user : User) (r : ScoredRoommate),
      r ∈ scoredCandidates s user userId → ¬(r.base.user.id = userId) := by
    intro user r hr
    rcases List.mem_map.mp hr with ⟨x, hx, hxr⟩
    rcases List.mem_filter.mp hx with ⟨_, hxid⟩
    rw [← hxr]
    simpa using hxid
  cases hu : MemStorage.getUser s userId with
  | none =>
    have hempty : MemStorage.getTopMatches s userId = [] := by
      unfold MemStorage.getTopMatches
      rw [hu]
    rw [hempty]
    refine ⟨by simp, by simp, List.Pairwise.nil, hstab, ?_⟩
    intro user h
    exact absurd h (by simp)
  | some user0 =>
    have heq : MemStorage.getTopMatches s userId =
        (sortKeep scoreBefore (scoredCandidates s user0 userId)).take 6 := by
      unfold MemStorage.getTopMatches
      rw [hu]
    refine ⟨?_, ?_, ?_, hstab, ?_⟩
    · intro r hr
      rw [heq] at hr
      have hr2 : r ∈ sortKeep scoreBefore (scoredCandidates s user0 userId) :=
        List.take_subset 6 _ hr
      exact hexcl user0 r ((mem_sortKeep scoreBefore _ r).mp hr2)
    · rw [heq]
      have := List.length_take 6 (sortKeep scoreBefore (scoredCandidates s user0 userId))
      omega
    · rw [heq]
      have hp := sortKeep_pairwise scoreBefore scoreBefore_asym scoreBefore_chain
        (scoredCandidates s user0 userId)
      have hp1 : (sortKeep scoreBefore (scoredCandidates s user0 userId)).Pairwise
          (fun a b => b.compatibilityScore ≤ a.compatibilityScore) := by
        refine hp.imp ?_
        intro a b hab
        simp only [scoreBefore, decide_eq_false_iff_not] at hab
        omega
      exact hp1.sublist (List.take_sublist 6 _)
    · intro user h
      injection h with h2
      rw [heq, h2]

/-- C8 witness: on the seeded store the requesting user exists and the
result is literally the first six of the stable descending sort. -/
theorem C8_top_matches_witness :
    (MemStorage.getUser (mkMemStorage 259200000) 1 = some (seedUser1 259200000)) ∧
    MemStorage.getTopMatches (mkMemStorage 259200000) 1 =
      (sortKeep scoreBefore (scoredCandidates (mkMemStorage 259200000)
        (seedUser1 259200000) 1)).take 6 :=
  ⟨rfl, (C8_top_matches (mkMemStorage 259200000) 1).2.2.2.2 (seedUser1 259200000) rfl⟩

theorem filter_badge_len_one (bs : List UserBadge) (bid : Nat)
    (hnd : (bs.map (fun b => b.id)).Nodup)
    (hhas : bs.any (fun b => b.id == bid) = true) :
    (bs.filter (fun b => b.id == bid)).length = 1 := by
  induction bs with
  | nil => simp at hhas
  | cons x xs ih =>
    rw [List.map_cons, List.nodup_cons] at hnd
    obtain ⟨hx, hxs⟩ := hnd
    by_cases hxid : (x.id == bid) = true
    · rw [List.filter_cons, if_pos hxid]
      have hrest : xs.filter (fun b => b.id == bid) = [] := by
        rw [List.filter_eq_nil_iff]
        intro b hbmem hbid
        apply hx
        have hxeq : x.id = bid := by simpa using hxid
        have hbeq : b.id = bid := by simpa using hbid
        rw [hxeq, ← hbeq]
        exact List.mem_map_of_mem _ hbmem
      simp [hrest]
    · have hxid2 : (x.id == bid) = false := Bool.eq_false_iff.mpr hxid
      rw [List.filter_cons, if_neg (by simp [hxid2])]
      apply ih hxs
      rcases List.any_eq_true.mp hhas with ⟨y, hy, hyp⟩
      rcases List.mem_cons.mp hy with heq | hmem
      · rw [heq] at hyp
        exact absurd hyp hxid
      · exact List.any_eq_true.mpr ⟨y, hmem, hyp⟩

theorem filter_badge_len_append (bs : List UserBadge) (bid : Nat) (nb : UserBadge)
    (hhas : bs.any (fun b => b.id == bid) = false) (hnb : nb.id = bid) :
    ((bs ++ [nb]).filter (fun b => b.id == bid)).length = 1 := by
  rw [List.filter_append]
  have h0 : bs.filter (fun b => b.id == bid) = [] := by
    rw [List.filter_eq_nil_iff]
    intro b hbmem hbid
    have hall := List.any_eq_false.mp hhas b hbmem
    exact hall hbid
  rw [h0]
  simp [hnb]

theorem nodup_badges_setUser (l : List User) (u : User)
    (hok : ∀ x ∈ l, (x.userBadges.map (fun b => b.id)).Nodup)
    (hu : (u.userBadges.map (fun b => b.id)).Nodup) :
    ∀ x ∈ setUser l u, (x.userBadges.map (fun b => b.id)).Nodup := by
  intro x hx
  rcases mem_setUser l u x hx with hmem | heq
  · exact hok x hmem
  · rw [heq]
    exact hu

theorem badgesOk_awardState (s : MemStorage) (userId badgeId now : Nat)
    (hok : UserBadgesOk s) : UserBadgesOk (awardState s userId badgeId now) := by
  rcases awardState_cases s userId badgeId now with heq | ⟨user, badge, hu, hb, hhas, heq⟩
  · rw [heq]
    exact hok
  · rw [heq]
    intro x hx
    refine nodup_badges_setUser s.users _ hok ?_ x hx
    have hbid : badge.id = badgeId := by
      have hp := List.find?_some hb
      simpa using hp
    dsimp only
    rw [List.map_append]
    rw [List.nodup_append]
    refine ⟨hok user (getUser_mem s userId user hu), by simp, ?_⟩
    intro a ha hamem
    simp only [List.map_cons, List.map_nil, List.mem_singleton] at hamem
    rcases List.mem_map.mp ha with ⟨b, hbmem, hba⟩
    have hall := List.any_eq_false.mp hhas b hbmem
    apply hall
    simp only [beq_iff_eq]
    rw [hba, hamem, hbid]

theorem badgesOk_ensure (s : MemStorage) (userId now : Nat)
    (nm descr ic : String) (pts : Nat) (hok : UserBadgesOk s) :
    UserBadgesOk (ensureBadgeAndAward s userId now nm descr ic pts) := by
  unfold ensureBadgeAndAward
  cases hf : s.badges.find? (fun b => b.name == nm) with
  | some b => exact badgesOk_awardState s userId b.id now hok
  | none =>
    dsimp only
    apply badgesOk_awardState
    intro x hx
    exact hok x hx

theorem badgesOk_checkBadges (s : MemStorage) (userId completion now : Nat)
    (hok : UserBadgesOk s) :
    UserBadgesOk (MemStorage.checkProfileCompletionBadges s userId completion now) := by
  unfold MemStorage.checkProfileCompletionBadges
  by_cases h1 : 25 ≤ completion <;> by_cases h2 : 50 ≤ completion <;>
    by_cases h3 : 75 ≤ completion <;> by_cases h4 : completion == 100 <;>
    simp only [h1, h2, h3, h4, if_true, if_false, Bool.false_eq_true] <;>
    repeat' first
      | exact hok
      | apply badgesOk_ensure

theorem badgesOk_calcState (s : MemStorage) (userId now : Nat)
    (hok : UserBadgesOk s) : UserBadgesOk (calcState s userId now) := by
  unfold calcState MemStorage.calculateProfileCompletion
  cases hu : MemStorage.getUser s userId with
  | none => exact hok
  | some user =>
    dsimp only
    apply badgesOk_checkBadges
    intro x hx
    refine nodup_badges_setUser s.users _ hok ?_ x hx
    exact hok user (getUser_mem s userId user hu)

theorem badgesOk_createUser (s : MemStorage) (iu : InsertUser) (now : Nat)
    (hok : UserBadgesOk s) : UserBadgesOk (s.createUser iu now).2 := by
  unfold MemStorage.createUser
  dsimp only
  intro x hx
  refine nodup_badges_setUser s.users _ hok ?_ x hx
  simp

theorem badgesOk_update (s : MemStorage) (userId : Nat) (prof : UpdateUserProfile)
    (hok : UserBadgesOk s)
    (hprof : ∀ bs, prof.userBadges = some bs → (bs.map (fun b => b.id)).Nodup) :
    ∀ u2 s2, MemStorage.updateUserProfile s userId prof = some (u2, s2) →
      UserBadgesOk s2 := by
  intro u2 s2 h
  unfold MemStorage.updateUserProfile at h
  cases hu : MemStorage.getUser s userId with
  | none =>
    rw [hu] at h
    exact absurd h (by simp)
  | some user =>
    rw [hu] at h
    dsimp only at h
    injection h with h
    have hs2 : s2 = { s with users := setUser s.users (mergeProfile user prof) } := by
      have := congrArg Prod.snd h
      exact this.symm
    rw [hs2]
    intro x hx
    refine nodup_badges_setUser s.users _ hok ?_ x hx
    show (((mergeProfile user prof).userBadges).map (fun b => b.id)).Nodup
    have hmerge : (mergeProfile user prof).userBadges =
        prof.userBadges.getD user.userBadges := rfl
    rw [hmerge]
    cases hpu : prof.userBadges with
    | none =>
      simp only [Option.getD_none]
      exact hok user (getUser_mem s userId user hu)
    | some bs =>
      simp only [Option.getD_some]
      exact hprof bs hpu

theorem awardState_getUser_after (s : MemStorage) (userId badgeId now : Nat)
    (user : User) (badge : Badge)
    (hu : MemStorage.getUser s userId = some user)
    (hb : MemStorage.getBadgeById s badgeId = some badge) :
    MemStorage.getUser (awardState s userId badgeId now) userId =
      some (if user.userBadges.any (fun b => b.id == badgeId) = true then user
            else { user with
                   userBadges := user.userBadges ++
                                   [{ id := badge.id, name := badge.name,
                                      description := badge.description,
                                      icon := badge.icon, category := badge.category,
                                      awardedAt := now }] }) ∧
    MemStorage.getBadgeById (awardState s userId badgeId now) badgeId = some badge := by
  unfold awardState MemStorage.awardBadge
  rw [hu, hb]
  dsimp only
  by_cases hhas : user.userBadges.any (fun b => b.id == badgeId)
  · rw [if_pos hhas, if_pos hhas]
    exact ⟨hu, hb⟩
  · rw [if_neg hhas, if_neg (by rw [Bool.eq_false_iff.mpr hhas]; simp)]
    constructor
    · have hid := getUser_id_eq s userId user hu
      show (setUser s.users _).find? (fun x => x.id == userId) = _
      rw [← hid]
      have h5 := getUser_setUser_self s.users
        { user with
          userBadges := user.userBadges ++
                          [{ id := badge.id, name := badge.name,
                             description := badge.description,
                             icon := badge.icon, category := badge.category,
                             awardedAt := now }] }
      dsimp only at h5
      rw [h5]
    · exact hb

theorem award_twice_exactly_one (s : MemStorage) (userId badgeId n1 n2 : Nat)
    (user : User) (badge : Badge)
    (hu : MemStorage.getUser s userId = some user)
    (hb : MemStorage.getBadgeById s badgeId = some badge)
    (hnd : (user.userBadges.map (fun b => b.id)).Nodup) :
    ((MemStorage.getUserBadges
        (awardState (awardState s userId badgeId n1) userId badgeId n2) userId).filter
      (fun b => b.id == badgeId)).length = 1 := by
  obtain ⟨h1u, h1b⟩ := awardState_getUser_after s userId badgeId n1 user badge hu hb
  have hbid : badge.id = badgeId := by
    have hp := List.find?_some hb
    simpa using hp
  by_cases hhas : user.userBadges.any (fun b => b.id == badgeId) = true
  · rw [if_pos hhas] at h1u
    obtain ⟨h2u, _⟩ := awardState_getUser_after (awardState s userId badgeId n1)
      userId badgeId n2 user badge h1u h1b
    rw [if_pos hhas] at h2u
    unfold MemStorage.getUserBadges
    rw [h2u]
    exact filter_badge_len_one user.userBadges badgeId hnd hhas
  · have hhasf : user.userBadges.any (fun b => b.id == badgeId) = false :=
      Bool.eq_false_iff.mpr hhas
    rw [if_neg hhas] at h1u
    obtain ⟨h2u, _⟩ := awardState_getUser_after (awardState s userId badgeId n1)
      userId badgeId n2 _ badge h1u h1b
    have h1any : ({ user with
        userBadges := user.userBadges ++
                        [{ id := badge.id, name := badge.name,
                           description := badge.description,
                           icon := badge.icon, category := badge.category,
                           awardedAt := n1 }] } : User).userBadges.any
        (fun b => b.id == badgeId) = true := by
      dsimp only
      rw [List.any_append]
      simp [hbid]
    rw [if_pos h1any] at h2u
    unfold MemStorage.getUserBadges
    rw [h2u]
    dsimp only
    refine filter_badge_len_append user.userBadges badgeId _ hhasf ?_
    exact hbid

/-- C6 counterexample: updateUserProfile accepts a userBadges field in the
partial profile and overwrites the stored badge list verbatim, so a single
storage operation leaves user 1 with two badge entries of the same id. -/
theorem C6_duplicate_badges_via_update :
    ((MemStorage.updateUserProfile (mkMemStorage 0) 1 dupBadgeUpd).map
      (fun r => (MemStorage.getUserBadges r.2 1).map (fun b => b.id))) =
      some [1, 1] := by
  decide

/-- C6 as amended: awarding a badge twice leaves exactly one award with that
badge id, and per-user badge id uniqueness is preserved by createUser,
awardBadge, calculateProfileCompletion, and by those profile updates whose
supplied badge list is itself duplicate-free; an updateUserProfile carrying
a duplicated userBadges list breaks the invariant. -/
theorem C6_badge_uniqueness (s : MemStorage) (userId badgeId n1 n2 now : Nat)
    (iu : InsertUser) (prof : UpdateUserProfile) (user : User) (badge : Badge)
    (hok : UserBadgesOk s)
    (hu : MemStorage.getUser s userId = some user)
    (hb : MemStorage.getBadgeById s badgeId = some badge)
    (hprof : ∀ bs, prof.userBadges = some bs → (bs.map (fun b => b.id)).Nodup) :
    (((MemStorage.getUserBadges
        (awardState (awardState s userId badgeId n1) userId badgeId n2) userId).filter
      (fun b => b.id == badgeId)).length = 1) ∧
    UserBadgesOk (s.createUser iu now).2 ∧
    UserBadgesOk (awardState s userId badgeId now) ∧
    UserBadgesOk (calcState s userId now) ∧
    (∀ u2 s2, MemStorage.updateUserProfile s userId prof = some (u2, s2) →
      UserBadgesOk s2) :=
  ⟨award_twice_exactly_one s userId badgeId n1 n2 user badge hu hb
      (hok user (getUser_mem s userId user hu)),
    badgesOk_createUser s iu now hok,
    badgesOk_awardState s userId badgeId now hok,
    badgesOk_calcState s userId now hok,
    badgesOk_update s userId prof hok hprof⟩

/-- C6 witness: the seeded store extended with one catalog badge satisfies
every hypothesis for user 1, badge 1 and an empty profile update. -/
theorem C6_badge_uniqueness_witness :
    UserBadgesOk seededWithBadge ∧
    (MemStorage.getUser seededWithBadge 1 = some (seedUser1 0)) ∧
    (MemStorage.getBadgeById seededWithBadge 1 = some demoBadge) ∧
    (∀ bs, ({} : UpdateUserProfile).userBadges = some bs →
      (bs.map (fun b => b.id)).Nodup) ∧
    ((((MemStorage.getUserBadges
        (awardState (awardState seededWithBadge 1 1 3) 1 1 4) 1).filter
      (fun b => b.id == 1)).length = 1) ∧
    UserBadgesOk (seededWithBadge.createUser { username := "w", password := "pw" } 5).2 ∧
    UserBadgesOk (awardState seededWithBadge 1 1 5) ∧
    UserBadgesOk (calcState seededWithBadge 1 5) ∧
    (∀ u2 s2, MemStorage.updateUserProfile seededWithBadge 1 {} = some (u2, s2) →
      UserBadgesOk s2)) :=
  by
  refine ⟨?_, rfl, rfl, ?_, ?_⟩
  · unfold UserBadgesOk
    decide
  · intro bs h
    exact nomatch h
  · exact C6_badge_uniqueness seededWithBadge 1 1 3 4 5
      { username := "w", password := "pw" } {} (seedUser1 0) demoBadge
      (by unfold UserBadgesOk; decide) rfl rfl (fun bs h => nomatch h)

theorem convBefore_asym :
    ∀ a b : Conversation, convBefore a b = true → convBefore b a = false := by
  intro a b h
  simp only [convBefore, decide_eq_true_eq] at h
  simp only [convBefore, decide_eq_false_iff_not]
  omega

theorem convBefore_chain :
    ∀ a b c : Conversation, convBefore a b = false → convBefore c a = false →
      convBefore c b = false := by
  intro a b c h1 h2
  simp only [convBefore, decide_eq_false_iff_not] at h1 h2 ⊢
  omega

theorem mem_dedupFirstAux (l : List Nat) :
    ∀ (seen : List Nat) (a : Nat),
      a ∈ dedupFirstAux seen l ↔ a ∈ l ∧ ¬(a ∈ seen) := by
  induction l with
  | nil =>
    intro seen a
    simp [dedupFirstAux]
  | cons x xs ih =>
    intro seen a
    simp only [dedupFirstAux]
    by_cases hx : seen.contains x
    · rw [if_pos hx]
      rw [ih seen a]
      have hxs : x ∈ seen := by
        simpa [List.contains, List.elem_iff] using hx
      constructor
      · rintro ⟨hmem, hns⟩
        exact ⟨List.mem_cons_of_mem x hmem, hns⟩
      · rintro ⟨hmem, hns⟩
        rcases List.mem_cons.mp hmem with heq | hmem2
        · exfalso
          apply hns
          rw [heq]
          exact hxs
        · exact ⟨hmem2, hns⟩
    · rw [if_neg hx]
      have hxs : ¬(x ∈ seen) := by
        intro hmem
        apply hx
        simpa [List.contains, List.elem_iff] using hmem
      constructor
      · intro h
        rcases List.mem_cons.mp h with heq | h2
        · constructor
          · rw [heq]
            exact List.mem_cons_self x xs
          · rw [heq]
            exact hxs
        · rw [ih (x :: seen) a] at h2
          obtain ⟨hmem, hns⟩ := h2
          refine ⟨List.mem_cons_of_mem x hmem, fun hs => hns ?_⟩
          exact List.mem_cons_of_mem x hs
      · rintro ⟨hmem, hns⟩
        rcases List.mem_cons.mp hmem with heq | hmem2
        · rw [heq]
          exact List.mem_cons_self _ _
        · by_cases hax : a = x
          · rw [hax]
            exact List.mem_cons_self _ _
          · apply List.mem_cons_of_mem
            rw [ih (x :: seen) a]
            refine ⟨hmem2, fun hs => ?_⟩
            rcases List.mem_cons.mp hs with heq2 | hs2
            · exact hax heq2
            · exact hns hs2

theorem nodup_dedupFirstAux (l : List Nat) :
    ∀ seen : List Nat, (dedupFirstAux seen l).Nodup := by
  induction l with
  | nil =>
    intro seen
    simp [dedupFirstAux]
  | cons x xs ih =>
    intro seen
    simp only [dedupFirstAux]
    by_cases hx : seen.contains x
    · rw [if_pos hx]
      exact ih seen
    · rw [if_neg hx]
      rw [List.nodup_cons]
      refine ⟨?_, ih (x :: seen)⟩
      intro hmem
      rw [mem_dedupFirstAux] at hmem
      exact hmem.2 (List.mem_cons_self x seen)

theorem mem_dedupFirst (l : List Nat) (a : Nat) : a ∈ dedupFirst l ↔ a ∈ l := by
  unfold dedupFirst
  rw [mem_dedupFirstAux]
  simp

theorem nodup_dedupFirst (l : List Nat) : (dedupFirst l).Nodup :=
  nodup_dedupFirstAux l []

theorem map_filterMap_eq_filter {α β : Type} (f : α → Option β) (g : β → α)
    (hf : ∀ a b, f a = some b → g b = a) (l : List α) :
    (l.filterMap f).map g = l.filter (fun a => (f a).isSome) := by
  induction l with
  | nil => rfl
  | cons x xs ih =>
    cases hx : f x with
    | none =>
      rw [List.filterMap_cons_none hx, List.filter_cons, if_neg (by simp [hx])]
      exact ih
    | some b =>
      rw [List.filterMap_cons_some hx, List.filter_cons, if_pos (by simp [hx])]
      rw [List.map_cons, ih, hf x b hx]

theorem partner_has_message (s : MemStorage) (userId p : Nat)
    (hp : p ∈ conversationPartners s userId) :
    ∃ m, m ∈ pairMessages s userId p := by
  unfold conversationPartners at hp
  rw [mem_dedupFirst] at hp
  rcases List.mem_map.mp hp with ⟨m, hm, hpm⟩
  refine ⟨m, ?_⟩
  unfold MemStorage.userMessages at hm
  rcases List.mem_filter.mp hm with ⟨hmem, hcond⟩
  unfold pairMessages
  rw [List.mem_filter]
  refine ⟨hmem, ?_⟩
  unfold pairPred
  unfold partnerOf at hpm
  by_cases hs : (m.senderId == userId) = true
  · rw [if_pos hs] at hpm
    rw [Bool.or_eq_true]
    left
    rw [Bool.and_eq_true]
    exact ⟨hs, by simp [hpm]⟩
  · rw [if_neg hs] at hpm
    have hr : (m.receiverId == userId) = true := by
      rcases Bool.or_eq_true_iff.mp hcond with h | h
      · exact absurd h hs
      · exact h
    rw [Bool.or_eq_true]
    right
    rw [Bool.and_eq_true]
    exact ⟨by simp [hpm], hr⟩

theorem find?_map_stable {α : Type} (g : α → α) (p : α → Bool) (l : List α)
    (h : ∀ x, p (g x) = p x) : (l.map g).find? p = (l.find? p).map g := by
  induction l with
  | nil => rfl
  | cons x xs ih =>
    rw [List.map_cons]
    by_cases hx : p x = true
    · simp only [List.find?, h x, hx]
      rfl
    · have hx2 : p x = false := Bool.eq_false_iff.mpr hx
      simp only [List.find?, h x, hx2]
      exact ih

theorem dbUpdateUsers_pc (l : List User) (userId : Nat) (f : User → User)
    (hid : ∀ u, (f u).id = u.id)
    (hpc : ∀ u, (f u).profileCompletion = u.profileCompletion) (id2 : Nat) :
    ((dbUpdateUsers l userId f).find? (fun x => x.id == id2)).map
      (fun v => v.profileCompletion) =
    (l.find? (fun x => x.id == id2)).map (fun v => v.profileCompletion) := by
  unfold dbUpdateUsers
  rw [find?_map_stable]
  · cases hres : l.find? (fun x => x.id == id2) with
    | none => rfl
    | some u =>
      by_cases hu : u.id == userId
      · have hup : u.id = userId := by simpa using hu
        simp [hup, hpc u]
      · have hup : ¬(u.id = userId) := by simpa using hu
        simp [hup]
  · intro x
    by_cases hx : x.id == userId
    · rw [if_pos hx]
      rw [hid x]
    · rw [if_neg hx]

theorem dbAwardState_pc (s : DbStorage) (userId badgeId now id2 : Nat) :
    (DbStorage.getUser (dbAwardState s userId badgeId now) id2).map
      (fun v => v.profileCompletion) =
    (DbStorage.getUser s id2).map (fun v => v.profileCompletion) := by
  unfold dbAwardState DbStorage.awardBadge
  cases hb : DbStorage.getBadgeById s badgeId with
  | none => rfl
  | some badge =>
    cases hu : DbStorage.getUser s userId with
    | none => rfl
    | some user =>
      dsimp only
      by_cases hhas : user.userBadges.any (fun b => b.id == badgeId)
      · rw [if_pos hhas]
        cases hfind : user.userBadges.find? (fun b => b.id == badgeId) with
        | some held => rfl
        | none => rfl
      · rw [if_neg hhas]
        dsimp only
        exact dbUpdateUsers_pc s.users userId
          (fun u =>
            { u with
              userBadges := user.userBadges ++
                              [{ id := badge.id, name := badge.name,
                                 description := badge.description,
                                 icon := badge.icon, category := badge.category,
                                 awardedAt := now }] })
          (fun u => rfl) (fun u => rfl) id2

theorem dbEnsure_pc (s : DbStorage) (userId now : Nat) (nm descr ic : String)
    (pts id2 : Nat) :
    (DbStorage.getUser
        (DbStorage.ensureCompletionBadge s userId now nm descr ic pts) id2).map
      (fun v => v.profileCompletion) =
    (DbStorage.getUser s id2).map (fun v => v.profileCompletion) := by
  unfold DbStorage.ensureCompletionBadge
  cases hf : s.badges.find? (fun b => b.name == nm) with
  | some b => exact dbAwardState_pc s userId b.id now id2
  | none =>
    dsimp only
    rw [dbAwardState_pc]
    rfl

theorem dbCheckBadges_pc (s : DbStorage) (userId completion now id2 : Nat) :
    (DbStorage.getUser
        (DbStorage.checkProfileCompletionBadges s userId completion now) id2).map
      (fun v => v.profileCompletion) =
    (DbStorage.getUser s id2).map (fun v => v.profileCompletion) := by
  unfold DbStorage.checkProfileCompletionBadges
  by_cases h1 : 25 ≤ completion <;> by_cases h2 : 50 ≤ completion <;>
    by_cases h3 : 75 ≤ completion <;> by_cases h4 : completion == 100 <;>
    simp only [h1, h2, h3, h4, if_true, if_false, Bool.false_eq_true, dbEnsure_pc]

theorem find?_dbUpdateUsers_self (l : List User) (userId : Nat) (f : User → User)
    (hid : ∀ u, (f u).id = u.id) (u : User)
    (hu : l.find? (fun x => x.id == userId) = some u) :
    (dbUpdateUsers l userId f).find? (fun x => x.id == userId) = some (f u) := by
  unfold dbUpdateUsers
  rw [find?_map_stable]
  · rw [hu]
    have huid : u.id = userId := by
      have hp := List.find?_some hu
      simpa using hp
    simp [huid]
  · intro x
    by_cases hx : x.id == userId
    · rw [if_pos hx, hid x]
    · rw [if_neg hx]

/-- C5 as amended: calculateProfileCompletion returns round-half-up of 100
times the filled count over nine and persists the percentage on the user;
the in-memory backend counts the eight scalar signals whenever they are
non-null (an empty string included) with only the preference set required
non-empty, while the persistent backend counts every signal by JavaScript
truthiness, excluding empty strings and a zero age. -/
theorem C5_completion_formula (s : MemStorage) (userId now : Nat) (u : User)
    (hu : MemStorage.getUser s userId = some u) :
    (∃ s2, MemStorage.calculateProfileCompletion s userId now =
        some (roundHalfUpDiv (100 * memFilledCount u) 9, s2) ∧
      (MemStorage.getUser s2 userId).map (fun v => v.profileCompletion) =
        some (roundHalfUpDiv (100 * memFilledCount u) 9)) ∧
    (∀ (d : DbStorage) (u2 : User), DbStorage.getUser d userId = some u2 →
      ∃ d2, DbStorage.calculateProfileCompletion d userId now =
          some (roundHalfUpDiv (100 * dbFilledCount u2) 9, d2) ∧
        (DbStorage.getUser d2 userId).map (fun v => v.profileCompletion) =
          some (roundHalfUpDiv (100 * dbFilledCount u2) 9)) := by
  constructor
  · unfold MemStorage.calculateProfileCompletion
    rw [hu]
    dsimp only
    refine ⟨_, rfl, ?_⟩
    rw [checkBadges_pc]
    have hid := getUser_id_eq s userId u hu
    show ((setUser s.users _).find? (fun x => x.id == userId)).map
      (fun v => v.profileCompletion) = _
    rw [← hid]
    have h5 := getUser_setUser_self s.users
      { u with profileCompletion := roundHalfUpDiv (100 * memFilledCount u) 9 }
    dsimp only at h5
    rw [h5]
    rfl
  · intro d u2 hu2
    unfold DbStorage.calculateProfileCompletion
    rw [hu2]
    dsimp only
    by_cases hch : u2.profileCompletion == roundHalfUpDiv (100 * dbFilledCount u2) 9
    · rw [if_pos hch]
      refine ⟨d, rfl, ?_⟩
      rw [hu2]
      have hv : u2.profileCompletion = roundHalfUpDiv (100 * dbFilledCount u2) 9 := by
        simpa using hch
      simp [hv]
    · rw [if_neg hch]
      refine ⟨_, rfl, ?_⟩
      rw [dbCheckBadges_pc]
      have hfind := find?_dbUpdateUsers_self d.users userId
        (fun x => { x with profileCompletion := roundHalfUpDiv (100 * dbFilledCount u2) 9 })
        (fun x => rfl) u2 hu2
      unfold DbStorage.getUser
      dsimp only
      rw [hfind]
      rfl

/-- C5 witness: the formula instantiated on one-user stores of both
backends; the empty first name counts in the in-memory count but not in
the persistent truthiness count. -/
theorem C5_completion_formula_witness :
    (MemStorage.getUser emptyNameStore 1 = some emptyNameUser) ∧
    (DbStorage.getUser dbCalcStore 1 = some emptyNameUser) ∧
    (∃ s2, MemStorage.calculateProfileCompletion emptyNameStore 1 0 =
        some (roundHalfUpDiv (100 * memFilledCount emptyNameUser) 9, s2) ∧
      (MemStorage.getUser s2 1).map (fun v => v.profileCompletion) =
        some (roundHalfUpDiv (100 * memFilledCount emptyNameUser) 9)) ∧
    (∃ d2, DbStorage.calculateProfileCompletion dbCalcStore 1 0 =
        some (roundHalfUpDiv (100 * dbFilledCount emptyNameUser) 9, d2) ∧
      (DbStorage.getUser d2 1).map (fun v => v.profileCompletion) =
        some (roundHalfUpDiv (100 * dbFilledCount emptyNameUser) 9)) :=
  ⟨rfl, rfl, (C5_completion_formula emptyNameStore 1 0 emptyNameUser rfl).1,
    (C5_completion_formula emptyNameStore 1 0 emptyNameUser rfl).2 dbCalcStore
      emptyNameUser rfl⟩

theorem head?_insertKeep {α : Type} (bf : α → α → Bool) (m : α) (l : List α) :
    (insertKeep bf m l).head? =
      some (match l.head? with
            | none => m
            | some y => if bf y m then y else m) := by
  cases l with
  | nil => rfl
  | cons x xs =>
    simp only [insertKeep]
    by_cases h : bf x m
    · rw [if_pos h]
      simp [h]
    · rw [if_neg h]
      simp [Bool.eq_false_iff.mpr h]

theorem head?_sortKeep_dbTimeBefore (l : List Message) :
    (sortKeep dbTimeBefore l).head? = latestOfDb l := by
  induction l with
  | nil => rfl
  | cons x xs ih =>
    simp only [sortKeep, latestOfDb]
    rw [head?_insertKeep dbTimeBefore x (sortKeep dbTimeBefore xs), ih]
    cases hxs : latestOfDb xs with
    | none => rfl
    | some y => simp only [dbTimeBefore]

theorem latestOfDb_eq_none (l : List Message) : latestOfDb l = none ↔ l = [] := by
  cases l with
  | nil => simp [latestOfDb]
  | cons x xs =>
    simp only [latestOfDb]
    cases latestOfDb xs <;> simp

theorem latestOfDb_spec (l : List Message) :
    l.Pairwise (fun a b => a.id < b.id) → ∀ m : Message, latestOfDb l = some m →
    m ∈ l ∧ ∀ x ∈ l, x.timestamp < m.timestamp ∨
      (x.timestamp = m.timestamp ∧ m.id ≤ x.id) := by
  induction l with
  | nil =>
    intro _ m hm
    simp [latestOfDb] at hm
  | cons a as ih =>
    intro hids m hm
    rw [List.pairwise_cons] at hids
    obtain ⟨ha, has⟩ := hids
    simp only [latestOfDb] at hm
    cases hlast : latestOfDb as with
    | none =>
      rw [hlast] at hm
      have hnil : as = [] := (latestOfDb_eq_none as).mp hlast
      injection hm with hm2
      constructor
      · rw [← hm2]
        exact List.mem_cons_self a as
      · intro x hx
        rw [hnil] at hx
        rcases List.mem_cons.mp hx with heq | habs
        · right
          rw [heq, ← hm2]
          exact ⟨rfl, Nat.le_refl _⟩
        · simp at habs
    | some y =>
      rw [hlast] at hm
      obtain ⟨hymem, hymax⟩ := ih has y hlast
      injection hm with hm2
      by_cases ht : a.timestamp < y.timestamp
      · rw [if_pos (decide_eq_true ht)] at hm2
        constructor
        · rw [← hm2]
          exact List.mem_cons_of_mem a hymem
        · intro x hx
          rcases List.mem_cons.mp hx with heq | hxs
          · left
            rw [heq, ← hm2]
            exact ht
          · rw [← hm2]
            exact hymax x hxs
      · rw [if_neg (by simpa using ht)] at hm2
        constructor
        · rw [← hm2]
          exact List.mem_cons_self a as
        · intro x hx
          rcases List.mem_cons.mp hx with heq | hxs
          · right
            rw [heq, ← hm2]
            exact ⟨rfl, Nat.le_refl _⟩
          · rw [← hm2]
            rcases hymax x hxs with hlt | ⟨heq2, hid⟩
            · left
              omega
            · rcases Nat.lt_or_ge x.timestamp a.timestamp with h1 | h1
              · left
                exact h1
              · right
                have hax : a.id < x.id := ha x hxs
                refine ⟨by omega, Nat.le_of_lt hax⟩

theorem db_filter_pair (s : DbStorage) (userId p : Nat) :
    (DbStorage.userMessages s userId).filter (pairPred userId p) =
      DbStorage.pairMessages s userId p := by
  unfold DbStorage.userMessages DbStorage.pairMessages
  rw [List.filter_filter]
  apply List.filter_congr
  intro m _
  by_cases hp : pairPred userId p m = true
  · have hinv : (m.senderId == userId || m.receiverId == userId) = true := by
      unfold pairPred at hp
      rcases Bool.or_eq_true_iff.mp hp with h | h
      · rw [Bool.and_eq_true] at h
        exact Bool.or_eq_true_iff.mpr (Or.inl h.1)
      · rw [Bool.and_eq_true] at h
        exact Bool.or_eq_true_iff.mpr (Or.inr h.2)
    rw [hp, hinv]
    rfl
  · have hp2 : pairPred userId p m = false := Bool.eq_false_iff.mpr hp
    rw [hp2]
    simp

theorem db_partner_has_message (s : DbStorage) (userId p : Nat)
    (hp : p ∈ DbStorage.conversationPartners s userId) :
    ∃ m, m ∈ DbStorage.pairMessages s userId p := by
  unfold DbStorage.conversationPartners at hp
  rw [mem_dedupFirst] at hp
  rcases List.mem_map.mp hp with ⟨m, hm, hpm⟩
  refine ⟨m, ?_⟩
  unfold DbStorage.userMessages at hm
  rcases List.mem_filter.mp hm with ⟨hmem, hcond⟩
  unfold DbStorage.pairMessages
  rw [List.mem_filter]
  refine ⟨hmem, ?_⟩
  unfold pairPred
  unfold partnerOf at hpm
  by_cases hs : (m.senderId == userId) = true
  · rw [if_pos hs] at hpm
    rw [Bool.or_eq_true]
    left
    rw [Bool.and_eq_true]
    exact ⟨hs, by simp [hpm]⟩
  · rw [if_neg hs] at hpm
    have hr : (m.receiverId == userId) = true := by
      rcases Bool.or_eq_true_iff.mp hcond with h | h
      · exact absurd h hs
      · exact h
    rw [Bool.or_eq_true]
    right
    rw [Bool.and_eq_true]
    exact ⟨by simp [hpm], hr⟩

/-- C7 counterexample to the claimed uniform highest-id tie-break: in the
persistent store cDbTie the two pair messages share timestamp 100 and the
aggregator reports the content of message id 1, the lowest id, not id 2. -/
theorem C7_db_tie_lowest :
    ((DbStorage.getConversations cDbTie 1).map (fun c => (c.userId, c.lastMessage)) =
      [(2, "first")]) ∧
    (cDbTie.messages.map (fun m => (m.id, m.timestamp, m.content)) =
      [(1, 100, "first"), (2, 100, "second")]) := by
  constructor
  · rfl
  · rfl

/-- C7 (amended): in both backends the inbox has exactly one entry per
distinct correspondent whose user record resolves; each entry carries a
pair message of maximal timestamp, its read flag is true iff the viewer
authored that message or it is marked read, and the entries are sorted by
most recent message first.  The backends disagree on ties: the in-memory
aggregator keeps the highest id among equal timestamps while the
persistent one keeps the lowest.  Message ids increase along each stored
log (serial insertion), stated as the hypotheses. -/
theorem C7_conversations (s : MemStorage) (d : DbStorage) (userId : Nat)
    (hids : s.messages.Pairwise (fun a b => a.id < b.id))
    (hdids : d.messages.Pairwise (fun a b => a.id < b.id)) :
    (((MemStorage.getConversations s userId).map (fun c => c.userId)).Nodup) ∧
    (∀ p : Nat, p ∈ (MemStorage.getConversations s userId).map (fun c => c.userId) ↔
      (p ∈ conversationPartners s userId ∧ (MemStorage.getUser s p).isSome = true)) ∧
    (∀ c ∈ MemStorage.getConversations s userId, ∃ m,
      m ∈ pairMessages s userId c.userId ∧
      c.lastMessage = m.content ∧ c.lastMessageTime = m.timestamp ∧
      c.read = (m.senderId == userId || m.read) ∧
      (∀ m2 ∈ pairMessages s userId c.userId,
        m2.timestamp < m.timestamp ∨ (m2.timestamp = m.timestamp ∧ m2.id ≤ m.id))) ∧
    ((MemStorage.getConversations s userId).Pairwise
      (fun a b => b.lastMessageTime ≤ a.lastMessageTime)) ∧
    (((DbStorage.getConversations d userId).map (fun c => c.userId)).Nodup) ∧
    (∀ p : Nat, p ∈ (DbStorage.getConversations d userId).map (fun c => c.userId) ↔
      (p ∈ DbStorage.conversationPartners d userId ∧
        (DbStorage.getUser d p).isSome = true)) ∧
    (∀ c ∈ DbStorage.getConversations d userId, ∃ m,
      m ∈ DbStorage.pairMessages d userId c.userId ∧
      c.lastMessage = m.content ∧ c.lastMessageTime = m.timestamp ∧
      c.read = (m.senderId == userId || m.read) ∧
      (∀ m2 ∈ DbStorage.pairMessages d userId c.userId,
        m2.timestamp < m.timestamp ∨ (m2.timestamp = m.timestamp ∧ m.id ≤ m2.id))) ∧
    ((DbStorage.getConversations d userId).Pairwise
      (fun a b => b.lastMessageTime ≤ a.lastMessageTime)) := by
  set F : Nat → Option Conversation := fun partnerId =>
    match MemStorage.getUser s partnerId with
    | none => none
    | some partner =>
      match (MemStorage.getMessages s userId partnerId).1.getLast? with
      | none => none
      | some latestMessage =>
        some { userId := partnerId
               name := displayName partner
               profileImage := partner.profileImage
               lastMessage := latestMessage.content
               lastMessageTime := latestMessage.timestamp
               read := latestMessage.senderId == userId || latestMessage.read }
    with hF
  set G : Nat → Option Conversation := fun partnerId =>
    match DbStorage.getUser d partnerId with
    | none => none
    | some partner =>
      match (sortKeep dbTimeBefore
          ((DbStorage.userMessages d userId).filter (pairPred userId partnerId))).head? with
      | none => none
      | some latestMessage =>
        some { userId := partnerId
               name := displayName partner
               profileImage := imageOrUndefined partner.profileImage
               lastMessage := latestMessage.content
               lastMessageTime := latestMessage.timestamp
               read := latestMessage.senderId == userId || latestMessage.read }
    with hG
  have hgc : MemStorage.getConversations s userId =
      sortKeep convBefore ((conversationPartners s userId).filterMap F) := by
    rw [hF]
    rfl
  have hgd : DbStorage.getConversations d userId =
      sortKeep convBefore ((DbStorage.conversationPartners d userId).filterMap G) := by
    rw [hG]
    rfl
  have hFid : ∀ p c, F p = some c → c.userId = p := by
    intro p c h
    rw [hF] at h
    dsimp only at h
    cases hg : MemStorage.getUser s p with
    | none =>
      rw [hg] at h
      simp at h
    | some partner =>
      rw [hg] at h
      dsimp only at h
      cases hl : (MemStorage.getMessages s userId p).1.getLast? with
      | none =>
        rw [hl] at h
        simp at h
      | some lm =>
        rw [hl] at h
        dsimp only at h
        injection h with h
        rw [← h]
  have hFchar : ∀ p c, F p = some c →
      (MemStorage.getUser s p).isSome = true ∧
      ∃ m, latestOf (pairMessages s userId p) = some m ∧
        c.lastMessage = m.content ∧ c.lastMessageTime = m.timestamp ∧
        c.read = (m.senderId == userId || m.read) := by
    intro p c h
    rw [hF] at h
    dsimp only at h
    cases hg : MemStorage.getUser s p with
    | none =>
      rw [hg] at h
      simp at h
    | some partner =>
      rw [hg] at h
      dsimp only at h
      cases hl : (MemStorage.getMessages s userId p).1.getLast? with
      | none =>
        rw [hl] at h
        simp at h
      | some lm =>
        rw [hl] at h
        dsimp only at h
        injection h with h
        refine ⟨by rfl, lm, ?_, ?_, ?_, ?_⟩
        · rw [← getLast?_sortKeep_timeBefore]
          exact hl
        · rw [← h]
        · rw [← h]
        · rw [← h]
  have hFsome : ∀ p, p ∈ conversationPartners s userId →
      (MemStorage.getUser s p).isSome = true → (F p).isSome = true := by
    intro p hp hu
    rw [hF]
    dsimp only
    cases hg : MemStorage.getUser s p with
    | none =>
      rw [hg] at hu
      simp at hu
    | some partner =>
      dsimp only
      obtain ⟨m, hm⟩ := partner_has_message s userId p hp
      have hne : ¬(pairMessages s userId p = []) := by
        intro hnil
        rw [hnil] at hm
        exact absurd hm (List.not_mem_nil m)
      cases hl : (MemStorage.getMessages s userId p).1.getLast? with
      | none =>
        exfalso
        apply hne
        rw [← latestOf_eq_none, ← getLast?_sortKeep_timeBefore]
        exact hl
      | some lm => simp
  have hGid : ∀ p c, G p = some c → c.userId = p := by
    intro p c h
    rw [hG] at h
    dsimp only at h
    cases hg : DbStorage.getUser d p with
    | none =>
      rw [hg] at h
      simp at h
    | some partner =>
      rw [hg] at h
      dsimp only at h
      cases hl : (sortKeep dbTimeBefore
          ((DbStorage.userMessages d userId).filter (pairPred userId p))).head? with
      | none =>
        rw [hl] at h
        simp at h
      | some lm =>
        rw [hl] at h
        dsimp only at h
        injection h with h
        rw [← h]
  have hGchar : ∀ p c, G p = some c →
      (DbStorage.getUser d p).isSome = true ∧
      ∃ m, latestOfDb (DbStorage.pairMessages d userId p) = some m ∧
        c.lastMessage = m.content ∧ c.lastMessageTime = m.timestamp ∧
        c.read = (m.senderId == userId || m.read) := by
    intro p c h
    rw [hG] at h
    dsimp only at h
    cases hg : DbStorage.getUser d p with
    | none =>
      rw [hg] at h
      simp at h
    | some partner =>
      rw [hg] at h
      dsimp only at h
      cases hl : (sortKeep dbTimeBefore
          ((DbStorage.userMessages d userId).filter (pairPred userId p))).head? with
      | none =>
        rw [hl] at h
        simp at h
      | some lm =>
        rw [hl] at h
        dsimp only at h
        injection h with h
        rw [db_filter_pair] at hl
        refine ⟨by rfl, lm, ?_, ?_, ?_, ?_⟩
        · rw [← head?_sortKeep_dbTimeBefore]
          exact hl
        · rw [← h]
        · rw [← h]
        · rw [← h]
  have hGsome : ∀ p, p ∈ DbStorage.conversationPartners d userId →
      (DbStorage.getUser d p).isSome = true → (G p).isSome = true := by
    intro p hp hu
    rw [hG]
    dsimp only
    cases hg : DbStorage.getUser d p with
    | none =>
      rw [hg] at hu
      simp at hu
    | some partner =>
      dsimp only
      obtain ⟨m, hm⟩ := db_partner_has_message d userId p hp
      have hne : ¬(DbStorage.pairMessages d userId p = []) := by
        intro hnil
        rw [hnil] at hm
        exact absurd hm (List.not_mem_nil m)
      cases hl : (sortKeep dbTimeBefore
          ((DbStorage.userMessages d userId).filter (pairPred userId p))).head? with
      | none =>
        exfalso
        apply hne
        rw [db_filter_pair] at hl
        rw [← latestOfDb_eq_none, ← head?_sortKeep_dbTimeBefore]
        exact hl
      | some lm => simp
  rw [hgc, hgd]
  refine ⟨?_, ?_, ?_, ?_, ?_, ?_, ?_, ?_⟩
  · have hperm := (sortKeep_perm convBefore
      ((conversationPartners s userId).filterMap F)).map (fun c => c.userId)
    rw [List.Perm.nodup_iff hperm]
    rw [map_filterMap_eq_filter F (fun c => c.userId) hFid]
    exact (nodup_dedupFirst _).filter _
  · intro p
    have hperm := (sortKeep_perm convBefore
      ((conversationPartners s userId).filterMap F)).map (fun c => c.userId)
    rw [hperm.mem_iff]
    rw [map_filterMap_eq_filter F (fun c => c.userId) hFid]
    rw [List.mem_filter]
    constructor
    · rintro ⟨hp, hsome⟩
      refine ⟨hp, ?_⟩
      cases hfp : F p with
      | none =>
        rw [hfp] at hsome
        simp at hsome
      | some c => exact (hFchar p c hfp).1
    · rintro ⟨hp, hu⟩
      exact ⟨hp, hFsome p hp hu⟩
  · intro c hc
    rw [mem_sortKeep] at hc
    rw [List.mem_filterMap] at hc
    obtain ⟨p, hp, hfp⟩ := hc
    have hid := hFid p c hfp
    obtain ⟨-, m, hlat, h1, h2, h3⟩ := hFchar p c hfp
    have hpair : (pairMessages s userId p).Pairwise (fun a b => a.id < b.id) :=
      hids.filter _
    obtain ⟨hmem, hmax⟩ := latestOf_spec _ hpair m hlat
    rw [hid]
    exact ⟨m, hmem, h1, h2, h3, hmax⟩
  · have hp := sortKeep_pairwise convBefore convBefore_asym convBefore_chain
      ((conversationPartners s userId).filterMap F)
    refine hp.imp ?_
    intro a b hab
    simp only [convBefore, decide_eq_false_iff_not] at hab
    omega
  · have hperm := (sortKeep_perm convBefore
      ((DbStorage.conversationPartners d userId).filterMap G)).map (fun c => c.userId)
    rw [List.Perm.nodup_iff hperm]
    rw [map_filterMap_eq_filter G (fun c => c.userId) hGid]
    exact (nodup_dedupFirst _).filter _
  · intro p
    have hperm := (sortKeep_perm convBefore
      ((DbStorage.conversationPartners d userId).filterMap G)).map (fun c => c.userId)
    rw [hperm.mem_iff]
    rw [map_filterMap_eq_filter G (fun c => c.userId) hGid]
    rw [List.mem_filter]
    constructor
    · rintro ⟨hp, hsome⟩
      refine ⟨hp, ?_⟩
      cases hfp : G p with
      | none =>
        rw [hfp] at hsome
        simp at hsome
      | some c => exact (hGchar p c hfp).1
    · rintro ⟨hp, hu⟩
      exact ⟨hp, hGsome p hp hu⟩
  · intro c hc
    rw [mem_sortKeep] at hc
    rw [List.mem_filterMap] at hc
    obtain ⟨p, hp, hfp⟩ := hc
    have hid := hGid p c hfp
    obtain ⟨-, m, hlat, h1, h2, h3⟩ := hGchar p c hfp
    have hpair : (DbStorage.pairMessages d userId p).Pairwise (fun a b => a.id < b.id) :=
      hdids.filter _
    obtain ⟨hmem, hmax⟩ := latestOfDb_spec _ hpair m hlat
    rw [hid]
    exact ⟨m, hmem, h1, h2, h3, hmax⟩
  · have hp := sortKeep_pairwise convBefore convBefore_asym convBefore_chain
      ((DbStorage.conversationPartners d userId).filterMap G)
    refine hp.imp ?_
    intro a b hab
    simp only [convBefore, decide_eq_false_iff_not] at hab
    omega

/-- C7 witness: the seeded in-memory log and the tie store both have
strictly increasing message ids, and the aggregator properties hold there
for viewer 1. -/
theorem C7_conversations_witness :
    ((mkMemStorage 259200000).messages.Pairwise (fun a b => a.id < b.id)) ∧
    (cDbTie.messages.Pairwise (fun a b => a.id < b.id)) ∧
    ((((MemStorage.getConversations (mkMemStorage 259200000) 1).map
        (fun c => c.userId)).Nodup) ∧
    (∀ p : Nat, p ∈ (MemStorage.getConversations (mkMemStorage 259200000) 1).map
        (fun c => c.userId) ↔
      (p ∈ conversationPartners (mkMemStorage 259200000) 1 ∧
        (MemStorage.getUser (mkMemStorage 259200000) p).isSome = true)) ∧
    (∀ c ∈ MemStorage.getConversations (mkMemStorage 259200000) 1, ∃ m,
      m ∈ pairMessages (mkMemStorage 259200000) 1 c.userId ∧
      c.lastMessage = m.content ∧ c.lastMessageTime = m.timestamp ∧
      c.read = (m.senderId == 1 || m.read) ∧
      (∀ m2 ∈ pairMessages (mkMemStorage 259200000) 1 c.userId,
        m2.timestamp < m.timestamp ∨ (m2.timestamp = m.timestamp ∧ m2.id ≤ m.id))) ∧
    ((MemStorage.getConversations (mkMemStorage 259200000) 1).Pairwise
      (fun a b => b.lastMessageTime ≤ a.lastMessageTime)) ∧
    (((DbStorage.getConversations cDbTie 1).map (fun c => c.userId)).Nodup) ∧
    (∀ p : Nat, p ∈ (DbStorage.getConversations cDbTie 1).map (fun c => c.userId) ↔
      (p ∈ DbStorage.conversationPartners cDbTie 1 ∧
        (DbStorage.getUser cDbTie p).isSome = true)) ∧
    (∀ c ∈ DbStorage.getConversations cDbTie 1, ∃ m,
      m ∈ DbStorage.pairMessages cDbTie 1 c.userId ∧
      c.lastMessage = m.content ∧ c.lastMessageTime = m.timestamp ∧
      c.read = (m.senderId == 1 || m.read) ∧
      (∀ m2 ∈ DbStorage.pairMessages cDbTie 1 c.userId,
        m2.timestamp < m.timestamp ∨ (m2.timestamp = m.timestamp ∧ m.id ≤ m2.id))) ∧
    ((DbStorage.getConversations cDbTie 1).Pairwise
      (fun a b => b.lastMessageTime ≤ a.lastMessageTime))) :=
  ⟨by decide, by decide,
    C7_conversations (mkMemStorage 259200000) cDbTie 1 (by decide) (by decide)⟩
